import Mathlib

/-!
# gRPC log server: access control and streaming protocol

A shallow embedding of `internal/server/server.go`.

The handlers of the server talk to three kinds of collaborators that the source only
knows through Go interfaces: the `Authorizer`, the `CommitLog` and the gRPC stream
objects.  An interface value is modelled as a family of functions of the *history*:
the list of all interface calls (with their results) that the handler has made so far.
Any deterministic implementation of the interface, with whatever internal state, is
such a function; implementations whose answers change over time (a policy that starts
denying, a log whose tail grows because of concurrent producers) are included because
the history grows with every call.  A handler takes the history on entry and returns
its result together with the extended history, so that the order, the number and the
arguments of the calls it makes can be read off the result.

Loops that the source writes as `for { ... }` are given a fuel argument that bounds
the number of iterations; running out of fuel is the explicit result `Exit.running`.
-/

namespace Server

/-! ## Data model -/

/-- Modelled from the spec: the message type `api.Record` of the generated package
`internal/api/v1`, which is not part of the sources at hand: an opaque byte payload
plus the offset assigned by the log. -/
structure Record where
  Value : List Nat
  Offset : Nat
deriving DecidableEq, Repr

/-- Modelled from the spec: `api.ProduceRequest`, carrying one record. -/
structure ProduceRequest where
  Record : Record
deriving DecidableEq, Repr

/-- Modelled from the spec: `api.ProduceResponse`, carrying the offset assigned by the log. -/
structure ProduceResponse where
  Offset : Nat
deriving DecidableEq, Repr

/-- Modelled from the spec: `api.ConsumeRequest`, carrying the offset to read
(a `uint64` in the source). -/
structure ConsumeRequest where
  Offset : Nat
deriving DecidableEq, Repr

/-- Modelled from the spec: `api.ConsumeResponse`, carrying the record read. -/
structure ConsumeResponse where
  Record : Record
deriving DecidableEq, Repr

/-- Modelled from the spec: the values of Go's `error` interface that the handlers can
tell apart.  `ErrOffsetOutOfRange` stands for every error whose dynamic type is
`api.ErrOffsetOutOfRange` (declared in the missing api package; it is the one type the
type switch of `ConsumeStream` names), `EOF` for `io.EOF` (what `Recv` reports when the
caller has closed its side), `Status` for an error built by `status.New(code, msg).Err()`
and `Other` for every other error value. -/
inductive Error where
  | ErrOffsetOutOfRange (Offset : Nat)
  | EOF
  | Status (code : Nat) (msg : String)
  | Other (msg : String)
deriving DecidableEq, Repr

/-- The gRPC status code `codes.Unknown`. -/
def codesUnknown : Nat := 2

def objectWildcard : String := "*"

def produceAction : String := "produce"

def consumeAction : String := "consume"

/-- One call made by a handler through one of its interfaces, with the result the
interface gave. -/
inductive Event where
  | authorize (subject object action : String) (err : Option Error)
  | append (record : Record) (res : Except Error Nat)
  | read (offset : Nat) (res : Except Error Record)
  | recv (res : Except Error ProduceRequest)
  | send (res : ProduceResponse) (err : Option Error)
  | sendMsg (res : ConsumeResponse) (err : Option Error)
  | done (cancelled : Bool)

abbrev Trace := List Event

/-- Interface `Authorizer`: `Authorize(subject, object, action string) error`;
`none` is the nil error. -/
structure Authorizer where
  Authorize : Trace → String → String → String → Option Error

/-- Interface `CommitLog`: `Append(*api.Record) (uint64, error)` and
`Read(uint64) (*api.Record, error)`. -/
structure CommitLog where
  Append : Trace → Record → Except Error Nat
  Read : Trace → Nat → Except Error Record

/-- The part of `Config` that the log handlers use. -/
structure Config where
  CommitLog : CommitLog
  Authorizer : Authorizer

/-- A certificate, reduced to `Subject.CommonName`. -/
structure Certificate where
  CommonName : String
deriving DecidableEq, Repr

/-- The part of `tls.ConnectionState` that `authenticate` reads. -/
structure ConnectionState where
  VerifiedChains : List (List Certificate)
deriving DecidableEq, Repr

/-- The dynamic type of a non-nil `peer.AuthInfo`: `credentials.TLSInfo` or any other
implementation of `credentials.AuthInfo`. -/
inductive AuthInfo where
  | TLSInfo (State : ConnectionState)
  | OtherInfo (authType : String)
deriving DecidableEq, Repr

/-- The part of `peer.Peer` that `authenticate` reads; `none` is a nil `AuthInfo`. -/
structure Peer where
  AuthInfo : Option AuthInfo
deriving DecidableEq, Repr

/-- The part of a `context.Context` that the server reads: the peer stored by the
transport (`peer.FromContext`), the value stored under `subjectContextKey{}`, and
whether the channel `Done()` is closed at a given point of the history. -/
structure Context where
  peer : Option Peer
  subjectValue : Option String
  Done : Trace → Bool

/-- The outcome of a call of a unary handler: `(v, nil)`, `(nil, e)`, or a run-time
panic. -/
inductive Result (α : Type) where
  | ok (v : α)
  | err (e : Error)
  | panic

/-- The outcome of a call of a streaming handler: it returned an error value
(`none` is nil), it panicked, or it is still in its loop when the fuel is used up. -/
inductive Exit where
  | returned (err : Option Error)
  | panicked
  | running
deriving DecidableEq, Repr

/-- Interface `api.Log_ProduceStreamServer`. -/
structure Log_ProduceStreamServer where
  Recv : Trace → Except Error ProduceRequest
  Send : Trace → ProduceResponse → Option Error
  Context : Context

/-- Interface `api.Log_ConsumeStreamServer`. -/
structure Log_ConsumeStreamServer where
  SendMsg : Trace → ConsumeResponse → Option Error
  Context : Context

/-! ## The handlers -/

/-- Source `subject`: `ctx.Value(subjectContextKey{}).(string)`; `none` is the panic of
the type assertion when no string is stored under the key. -/
def subject (ctx : Context) : Option String :=
  ctx.subjectValue

/-- The outcome of `authenticate`: it returned `(ctx, err)` or it panicked. -/
inductive AuthResult where
  | ret (ctx : Context) (err : Option Error)
  | panic

/-- Source `authenticate`. -/
def authenticate (ctx : Context) : AuthResult :=
  match ctx.peer with
  | none => .ret ctx (some (.Status codesUnknown "couldn't find peer info"))
  | some peer =>
    match peer.AuthInfo with
    | none => .ret { ctx with subjectValue := some "" } none
    | some (.OtherInfo _) => .panic
    | some (.TLSInfo tlsInfo) =>
      match tlsInfo.VerifiedChains with
      | (cert :: _) :: _ => .ret { ctx with subjectValue := some cert.CommonName } none
      | _ => .panic

/-- Source `grpcServer.Produce`. -/
def Produce (s : Config) (ctx : Context) (req : ProduceRequest) (h : Trace) :
    Result ProduceResponse × Trace :=
  match subject ctx with
  | none => (.panic, h)
  | some sub =>
    let err := s.Authorizer.Authorize h sub objectWildcard produceAction
    let h := h ++ [Event.authorize sub objectWildcard produceAction err]
    match err with
    | some e => (.err e, h)
    | none =>
      let res := s.CommitLog.Append h req.Record
      let h := h ++ [Event.append req.Record res]
      match res with
      | .error e => (.err e, h)
      | .ok offset => (.ok { Offset := offset }, h)

/-- Source `grpcServer.Consume`. -/
def Consume (s : Config) (ctx : Context) (req : ConsumeRequest) (h : Trace) :
    Result ConsumeResponse × Trace :=
  match subject ctx with
  | none => (.panic, h)
  | some sub =>
    let err := s.Authorizer.Authorize h sub objectWildcard consumeAction
    let h := h ++ [Event.authorize sub objectWildcard consumeAction err]
    match err with
    | some e => (.err e, h)
    | none =>
      let res := s.CommitLog.Read h req.Offset
      let h := h ++ [Event.read req.Offset res]
      match res with
      | .error e => (.err e, h)
      | .ok record => (.ok { Record := record }, h)

/-- Source `grpcServer.ProduceStream`; each unit of fuel pays for one iteration of the
`for` loop. -/
def ProduceStream (s : Config) (stream : Log_ProduceStreamServer) :
    Nat → Trace → Exit × Trace
  | 0, h => (.running, h)
  | fuel + 1, h =>
    let r := stream.Recv h
    let h := h ++ [Event.recv r]
    match r with
    | .error e => (.returned (some e), h)
    | .ok req =>
      match Produce s stream.Context req h with
      | (.panic, h) => (.panicked, h)
      | (.err e, h) => (.returned (some e), h)
      | (.ok res, h) =>
        let e := stream.Send h res
        let h := h ++ [Event.send res e]
        match e with
        | some e => (.returned (some e), h)
        | none => ProduceStream s stream fuel h

/-- Source `grpcServer.ConsumeStream`; each unit of fuel pays for one iteration of the
`for` loop.  The request is returned as well, because the loop updates `req.Offset`
in place (`req.Offset++` on a `uint64`). -/
def ConsumeStream (s : Config) (stream : Log_ConsumeStreamServer) :
    Nat → ConsumeRequest → Trace → Exit × ConsumeRequest × Trace
  | 0, req, h => (.running, req, h)
  | fuel + 1, req, h =>
    let d := stream.Context.Done h
    let h := h ++ [Event.done d]
    match d with
    | true => (.returned none, req, h)
    | false =>
      match Consume s stream.Context req h with
      | (.panic, h) => (.panicked, req, h)
      | (.err (.ErrOffsetOutOfRange _), h) => ConsumeStream s stream fuel req h
      | (.err e, h) => (.returned (some e), req, h)
      | (.ok res, h) =>
        let e := stream.SendMsg h res
        let h := h ++ [Event.sendMsg res e]
        match e with
        | some e => (.returned (some e), req, h)
        | none => ConsumeStream s stream fuel { Offset := (req.Offset + 1) % 2 ^ 64 } h

/-! ## Reading a history -/

/-- Whether an event is a call of the log (`Append` or `Read`). -/
def Event.isLogCall : Event → Bool
  | .append _ _ => true
  | .read _ _ => true
  | _ => false

/-- The calls that the log has received, in order: what the log has seen of a history. -/
def logCalls (h : Trace) : Trace :=
  h.filter Event.isLogCall

/-- The records of the successful `Append` calls of a history, in order. -/
def appended : Trace → List Record
  | [] => []
  | Event.append r (.ok _) :: t => r :: appended t
  | _ :: t => appended t

/-- Whether an event is a `Recv` call. -/
def Event.isRecv : Event → Bool
  | .recv _ => true
  | _ => false

/-- The number of `Recv` calls of a history: while the handler of a produce stream
works on its request number `n`, the calls it has made since the stream was opened
contain `n` calls of `Recv`. -/
def recvCount (h : Trace) : Nat :=
  h.countP Event.isRecv

/-- The calls of one complete iteration of `ProduceStream` on behalf of `id`: the
request is received, the authorizer allows, the log assigns offset `o` to the record,
and the response carrying `o` is sent. -/
def exchange (id : String) (req : ProduceRequest) (o : Nat) : Trace :=
  [Event.recv (.ok req), Event.authorize id "*" "produce" none,
    Event.append req.Record (.ok o), Event.send { Offset := o } none]

/-- The calls of consecutive complete iterations of `ProduceStream`, one for each
request with the offset that the log assigned to it. -/
def exchanges (id : String) : List ProduceRequest → List Nat → Trace
  | req :: reqs, o :: offs => exchange id req o ++ exchanges id reqs offs
  | _, _ => []

/-- What the `n`-th call of `Recv` (counting from 0) yields on a stream whose caller
sends `reqs` and whose receive operation reports `e` afterwards. -/
def inbound (reqs : List ProduceRequest) (e : Error) (n : Nat) : Except Error ProduceRequest :=
  match reqs[n]? with
  | some req => .ok req
  | none => .error e

/-- Whether the dynamic type of an error is `api.ErrOffsetOutOfRange`: the case that the
type switch of `ConsumeStream` singles out. -/
def Error.isOffsetOutOfRange : Error → Bool
  | .ErrOffsetOutOfRange _ => true
  | _ => false

/-- The message of a `SendMsg` call. -/
def Event.sentMsg : Event → Option ConsumeResponse
  | .sendMsg m _ => some m
  | _ => none

/-- The messages that a consume stream has passed to `SendMsg`, in order. -/
def sentMsgs (h : Trace) : List ConsumeResponse :=
  h.filterMap Event.sentMsg

/-- The calls of an iteration of `ConsumeStream` that finds nothing at offset `c`: the
context is not cancelled, the authorizer allows, and `Read` yields an error of type
`ErrOffsetOutOfRange`. -/
def retry (id : String) (c x : Nat) : Trace :=
  [Event.done false, Event.authorize id "*" "consume" none,
    Event.read c (.error (.ErrOffsetOutOfRange x))]

/-- The calls of a complete iteration of `ConsumeStream` at offset `c`: the context is not
cancelled, the authorizer allows, `Read` yields the record `r`, and the response carrying
`r` is sent. -/
def delivery (id : String) (c : Nat) (r : Record) : Trace :=
  [Event.done false, Event.authorize id "*" "consume" none, Event.read c (.ok r),
    Event.sendMsg { Record := r } none]

/-- The calls of consecutive complete iterations of `ConsumeStream` that deliver the
records `recs` from the offsets `c`, `c + 1`, ... -/
def deliveries (id : String) : Nat → List Record → Trace
  | _, [] => []
  | c, r :: recs => delivery id c r ++ deliveries id (c + 1) recs

/-- The shape of the calls of a run of `ConsumeStream` on behalf of `id`:
`ConsumeRun id c t x c1` says that a run that starts at offset `c` may make the calls `t`,
end as `x`, and leave the offset `c1` in the request. -/
inductive ConsumeRun (id : String) : Nat → Trace → Exit → Nat → Prop where
  | running (c : Nat) : ConsumeRun id c [] .running c
  | cancelled (c : Nat) : ConsumeRun id c [Event.done true] (.returned none) c
  | denied (c : Nat) (e : Error) (hne : e.isOffsetOutOfRange = false) :
      ConsumeRun id c [Event.done false, Event.authorize id "*" "consume" (some e)]
        (.returned (some e)) c
  | readError (c : Nat) (e : Error) (hne : e.isOffsetOutOfRange = false) :
      ConsumeRun id c
        [Event.done false, Event.authorize id "*" "consume" none, Event.read c (.error e)]
        (.returned (some e)) c
  | sendError (c : Nat) (r : Record) (e : Error) :
      ConsumeRun id c
        [Event.done false, Event.authorize id "*" "consume" none, Event.read c (.ok r),
          Event.sendMsg { Record := r } (some e)]
        (.returned (some e)) c
  | deniedRetry (c x : Nat) (t : Trace) (ex : Exit) (c1 : Nat) (run : ConsumeRun id c t ex c1) :
      ConsumeRun id c
        (Event.done false
          :: Event.authorize id "*" "consume" (some (.ErrOffsetOutOfRange x)) :: t) ex c1
  | retry (c x : Nat) (t : Trace) (ex : Exit) (c1 : Nat) (run : ConsumeRun id c t ex c1) :
      ConsumeRun id c
        (Event.done false :: Event.authorize id "*" "consume" none
          :: Event.read c (.error (.ErrOffsetOutOfRange x)) :: t) ex c1
  | delivery (c : Nat) (r : Record) (t : Trace) (ex : Exit) (c1 : Nat)
      (run : ConsumeRun id ((c + 1) % 2 ^ 64) t ex c1) :
      ConsumeRun id c
        (Event.done false :: Event.authorize id "*" "consume" none :: Event.read c (.ok r)
          :: Event.sendMsg { Record := r } none :: t) ex c1

/-- The shape of the calls of a run of `ProduceStream` on behalf of `id`:
`ProduceRun id t x` says that a run may make the calls `t` and end as `x`. -/
inductive ProduceRun (id : String) : Trace → Exit → Prop where
  | running : ProduceRun id [] .running
  | recvError (e : Error) : ProduceRun id [Event.recv (.error e)] (.returned (some e))
  | denied (req : ProduceRequest) (e : Error) :
      ProduceRun id [Event.recv (.ok req), Event.authorize id "*" "produce" (some e)]
        (.returned (some e))
  | appendError (req : ProduceRequest) (e : Error) :
      ProduceRun id
        [Event.recv (.ok req), Event.authorize id "*" "produce" none,
          Event.append req.Record (.error e)]
        (.returned (some e))
  | sendError (req : ProduceRequest) (o : Nat) (e : Error) :
      ProduceRun id
        [Event.recv (.ok req), Event.authorize id "*" "produce" none,
          Event.append req.Record (.ok o), Event.send { Offset := o } (some e)]
        (.returned (some e))
  | exchange (req : ProduceRequest) (o : Nat) (t : Trace) (ex : Exit) (run : ProduceRun id t ex) :
      ProduceRun id
        (Event.recv (.ok req) :: Event.authorize id "*" "produce" none
          :: Event.append req.Record (.ok o) :: Event.send { Offset := o } none :: t) ex

/-- The offsets that the log `s.CommitLog` assigns to the records of `reqs` when a produce
stream on behalf of `id` serves them one after the other, starting with the history `h`:
the offset of a request is what `s.CommitLog.Append` answers, for the record of that
request, at the history that consists of `h`, the complete exchanges for the earlier
requests, the receipt of the request and the authorization that allowed it.  The list
ends at the first record that the log refuses. -/
def assigned (s : Config) (id : String) : Trace → List ProduceRequest → List Nat
  | _, [] => []
  | h, req :: reqs =>
    match s.CommitLog.Append
        (h ++ [Event.recv (.ok req), Event.authorize id "*" "produce" none]) req.Record with
    | .ok o => o :: assigned s id (h ++ exchange id req o) reqs
    | .error _ => []

/-- Whether an event is a check of the channel `Done()`. -/
def Event.isDone : Event → Bool
  | .done _ => true
  | _ => false

/-- The number of checks of `Done()` in a history: while the handler of a consume stream
is in its iteration number `n`, the calls it has made since the stream was opened contain
`n` such checks. -/
def doneCount (h : Trace) : Nat :=
  h.countP Event.isDone

/-- The calls of `m` consecutive iterations of `ConsumeStream` that find nothing at offset
`c`. -/
def retries (id : String) (c x : Nat) : Nat → Trace
  | 0 => []
  | m + 1 => retry id c x ++ retries id c x m

/-! ## Sample collaborators -/

/-- An in-memory log whose first offset is `b`: a record gets `b` plus the number of
records appended before it as its offset. -/
def baseLog (b : Nat) : CommitLog where
  Append := fun h _ => .ok (b + (appended h).length)
  Read := fun _ off => .error (.ErrOffsetOutOfRange off)

/-- An in-memory log that accepts records while the first `n` requests of a produce
stream are handled and is full from then on. -/
def fullAfter (n : Nat) : CommitLog where
  Append := fun h _ =>
    if recvCount h ≤ n then .ok (appended h).length else .error (.Other "log is full")
  Read := fun _ off => .error (.ErrOffsetOutOfRange off)

/-- The context of the caller `"root"` that is cancelled from its check number `n + 1`
on: the first `n` checks of `Done()` find it not cancelled. -/
def cancelledAfterChecks (n : Nat) : Context where
  peer := none
  subjectValue := some "root"
  Done := fun h => decide (n ≤ doneCount h)

/-- An authorizer that allows during the first `n` iterations of a consume stream and
from then on denies with an error of type `ErrOffsetOutOfRange`. -/
def allowThenOutOfRange (n : Nat) : Authorizer where
  Authorize := fun h _ _ _ =>
    if doneCount h ≤ n then none else some (.ErrOffsetOutOfRange 0)

/-- An authorizer that allows during the first `n` iterations of a consume stream and
denies from then on. -/
def allowIterations (n : Nat) : Authorizer where
  Authorize := fun h _ _ _ =>
    if doneCount h ≤ n then none else some (.Status 7 "permission denied")

/-- A produce stream whose caller sends `reqs` and then closes its side (`Recv` reports
`io.EOF`), and on which every `Send` succeeds. -/
def listStream (reqs : List ProduceRequest) (ctx : Context) : Log_ProduceStreamServer where
  Recv := fun h => inbound reqs .EOF (recvCount h)
  Send := fun _ _ => none
  Context := ctx

/-- An authorizer that allows while the first `n` requests of a produce stream are
handled and denies from then on. -/
def allowFirst (n : Nat) : Authorizer where
  Authorize := fun h _ _ _ =>
    if recvCount h ≤ n then none else some (.Status 7 "permission denied")

/-- An authorizer that allows everything. -/
def allowAll : Authorizer where
  Authorize := fun _ _ _ _ => none

/-- An authorizer that denies everything. -/
def denyAll : Authorizer where
  Authorize := fun _ _ _ _ => some (.Status 7 "permission denied")

/-- An in-memory log: a record gets the number of records appended before it as its
offset, and reading an offset that has not been appended is `ErrOffsetOutOfRange`. -/
def memLog : CommitLog where
  Append := fun h _ => .ok (appended h).length
  Read := fun h off =>
    match (appended h)[off]? with
    | some r => .ok r
    | none => .error (.ErrOffsetOutOfRange off)

/-- A log with fixed contents that refuses to append. -/
def fixedLog (recs : List Record) : CommitLog where
  Append := fun _ _ => .error (.Other "read-only")
  Read := fun _ off =>
    match recs[off]? with
    | some r => .ok r
    | none => .error (.ErrOffsetOutOfRange off)

/-- The context of a call on a connection without transport credentials, before
`authenticate` has run. -/
def plainCtx : Context where
  peer := some { AuthInfo := none }
  subjectValue := none
  Done := fun _ => false

/-- The context of an anonymous caller: the identity `""` is attached. -/
def anonCtx : Context where
  peer := some { AuthInfo := none }
  subjectValue := some ""
  Done := fun _ => false

/-- The context of the caller `"root"`. -/
def rootCtx : Context where
  peer := none
  subjectValue := some "root"
  Done := fun _ => false

/-- A consume stream on which every `SendMsg` succeeds. -/
def openStream (ctx : Context) : Log_ConsumeStreamServer where
  SendMsg := fun _ _ => none
  Context := ctx

/-- A consume stream on which every `SendMsg` fails. -/
def brokenStream (ctx : Context) : Log_ConsumeStreamServer where
  SendMsg := fun _ _ => some (.Other "transport is closing")
  Context := ctx

def rec1 : Record := { Value := [104, 105], Offset := 0 }

def rec2 : Record := { Value := [33], Offset := 0 }

/-! ## Unary handlers -/

/-- C1: for every caller identity and every request, when the authorizer rejects
(identity, "*", "produce") with error `e`, `Produce` returns no response and exactly `e`;
the only call it makes is that `Authorize` call, so `Append` is not invoked and the log
has seen nothing new. -/
theorem Produce_denied (s : Config) (ctx : Context) (id : String) (req : ProduceRequest)
    (h : Trace) (e : Error) (hid : subject ctx = some id)
    (hdeny : s.Authorizer.Authorize h id "*" "produce" = some e) :
    Produce s ctx req h = (.err e, h ++ [Event.authorize id "*" "produce" (some e)]) ∧
      logCalls (Produce s ctx req h).2 = logCalls h := by
  have hrun : Produce s ctx req h
      = (.err e, h ++ [Event.authorize id "*" "produce" (some e)]) := by
    simp only [Produce, hid, objectWildcard, produceAction, hdeny]
  refine ⟨hrun, ?_⟩
  rw [hrun]
  simp [logCalls, Event.isLogCall]

theorem Produce_denied_witness :
    subject anonCtx = some "" ∧
      Produce ⟨memLog, denyAll⟩ anonCtx ⟨rec1⟩ []
        = (.err (.Status 7 "permission denied"),
            [Event.authorize "" "*" "produce" (some (.Status 7 "permission denied"))]) :=
  ⟨rfl, (Produce_denied ⟨memLog, denyAll⟩ anonCtx "" ⟨rec1⟩ [] _ rfl rfl).1⟩

/-- C2: when the authorization of a `Produce` call succeeds, `Append` is called exactly
once, with the record of the request as it came; an offset `o` returned by `Append` is
the `Offset` of the response, and an error returned by `Append` is the error of
`Produce`, with no response. -/
theorem Produce_allowed (s : Config) (ctx : Context) (id : String) (req : ProduceRequest)
    (h : Trace) (hid : subject ctx = some id)
    (hallow : s.Authorizer.Authorize h id "*" "produce" = none) :
    (Produce s ctx req h).2
        = h ++ [Event.authorize id "*" "produce" none,
                Event.append req.Record
                  (s.CommitLog.Append (h ++ [Event.authorize id "*" "produce" none]) req.Record)] ∧
      (∀ o, s.CommitLog.Append (h ++ [Event.authorize id "*" "produce" none]) req.Record = .ok o →
        (Produce s ctx req h).1 = .ok { Offset := o }) ∧
      (∀ e, s.CommitLog.Append (h ++ [Event.authorize id "*" "produce" none]) req.Record = .error e →
        (Produce s ctx req h).1 = .err e) := by
  cases hres : s.CommitLog.Append (h ++ [Event.authorize id "*" "produce" none]) req.Record with
  | error e =>
    have hrun : Produce s ctx req h
        = (.err e, h ++ [Event.authorize id "*" "produce" none]
            ++ [Event.append req.Record (.error e)]) := by
      simp only [Produce, hid, objectWildcard, produceAction, hallow, hres]
    refine ⟨by rw [hrun]; simp, ?_, ?_⟩
    · intro o ho; cases ho
    · intro e1 he; cases he; rw [hrun]
  | ok o =>
    have hrun : Produce s ctx req h
        = (.ok { Offset := o }, h ++ [Event.authorize id "*" "produce" none]
            ++ [Event.append req.Record (.ok o)]) := by
      simp only [Produce, hid, objectWildcard, produceAction, hallow, hres]
    refine ⟨by rw [hrun]; simp, ?_, ?_⟩
    · intro o1 ho; cases ho; rw [hrun]
    · intro e he; cases he

theorem Produce_allowed_witness :
    (Produce ⟨memLog, allowAll⟩ rootCtx ⟨rec1⟩ []).2
        = [Event.authorize "root" "*" "produce" none, Event.append rec1 (.ok 0)] ∧
      (Produce ⟨memLog, allowAll⟩ rootCtx ⟨rec1⟩ []).1 = .ok { Offset := 0 } :=
  ⟨(Produce_allowed ⟨memLog, allowAll⟩ rootCtx "root" ⟨rec1⟩ [] rfl rfl).1,
    (Produce_allowed ⟨memLog, allowAll⟩ rootCtx "root" ⟨rec1⟩ [] rfl rfl).2.1 0 rfl⟩

/-- C3: when the authorization of (identity, "*", "consume") succeeds, unary `Consume`
makes one `Read` call at the requested offset and returns its outcome: the record it
yields, unchanged, or the error it yields (in particular `ErrOffsetOutOfRange`), as it
is.  When the authorization fails, `Read` is not called and the error of the authorizer
is returned. -/
theorem Consume_outcome (s : Config) (ctx : Context) (id : String) (req : ConsumeRequest)
    (h : Trace) (hid : subject ctx = some id) :
    (s.Authorizer.Authorize h id "*" "consume" = none →
      (Consume s ctx req h).2
          = h ++ [Event.authorize id "*" "consume" none,
                  Event.read req.Offset
                    (s.CommitLog.Read (h ++ [Event.authorize id "*" "consume" none]) req.Offset)] ∧
        (∀ r, s.CommitLog.Read (h ++ [Event.authorize id "*" "consume" none]) req.Offset = .ok r →
          (Consume s ctx req h).1 = .ok { Record := r }) ∧
        (∀ e, s.CommitLog.Read (h ++ [Event.authorize id "*" "consume" none]) req.Offset = .error e →
          (Consume s ctx req h).1 = .err e)) ∧
    (∀ e, s.Authorizer.Authorize h id "*" "consume" = some e →
      Consume s ctx req h = (.err e, h ++ [Event.authorize id "*" "consume" (some e)])) := by
  constructor
  · intro hallow
    cases hres : s.CommitLog.Read (h ++ [Event.authorize id "*" "consume" none]) req.Offset with
    | error e =>
      have hrun : Consume s ctx req h
          = (.err e, h ++ [Event.authorize id "*" "consume" none]
              ++ [Event.read req.Offset (.error e)]) := by
        simp only [Consume, hid, objectWildcard, consumeAction, hallow, hres]
      refine ⟨by rw [hrun]; simp, ?_, ?_⟩
      · intro r hr; cases hr
      · intro e1 he; cases he; rw [hrun]
    | ok r =>
      have hrun : Consume s ctx req h
          = (.ok { Record := r }, h ++ [Event.authorize id "*" "consume" none]
              ++ [Event.read req.Offset (.ok r)]) := by
        simp only [Consume, hid, objectWildcard, consumeAction, hallow, hres]
      refine ⟨by rw [hrun]; simp, ?_, ?_⟩
      · intro r1 hr; cases hr; rw [hrun]
      · intro e he; cases he
  · intro e hdeny
    simp only [Consume, hid, objectWildcard, consumeAction, hdeny]

theorem Consume_outcome_witness :
    (Consume ⟨fixedLog [rec1, rec2], allowAll⟩ rootCtx ⟨1⟩ []).1 = .ok { Record := rec2 } ∧
      (Consume ⟨fixedLog [rec1, rec2], allowAll⟩ rootCtx ⟨2⟩ []).1
        = .err (.ErrOffsetOutOfRange 2) ∧
      Consume ⟨fixedLog [rec1, rec2], denyAll⟩ rootCtx ⟨1⟩ []
        = (.err (.Status 7 "permission denied"),
            [Event.authorize "root" "*" "consume" (some (.Status 7 "permission denied"))]) :=
  ⟨((Consume_outcome ⟨fixedLog [rec1, rec2], allowAll⟩ rootCtx "root" ⟨1⟩ [] rfl).1 rfl).2.1
      rec2 rfl,
    ((Consume_outcome ⟨fixedLog [rec1, rec2], allowAll⟩ rootCtx "root" ⟨2⟩ [] rfl).1 rfl).2.2
      _ rfl,
    (Consume_outcome ⟨fixedLog [rec1, rec2], denyAll⟩ rootCtx "root" ⟨1⟩ [] rfl).2 _ rfl⟩

/-! ## The produce stream -/

theorem recvCount_append (a b : Trace) : recvCount (a ++ b) = recvCount a + recvCount b := by
  simp [recvCount]

theorem recvCount_exchange (id : String) (req : ProduceRequest) (o : Nat) :
    recvCount (exchange id req o) = 1 := by
  simp [recvCount, exchange, Event.isRecv]

theorem recvCount_exchanges (id : String) (reqs : List ProduceRequest) (offs : List Nat)
    (hlen : offs.length = reqs.length) : recvCount (exchanges id reqs offs) = reqs.length := by
  induction reqs generalizing offs with
  | nil => cases offs <;> simp [exchanges, recvCount]
  | cons req reqs ih =>
    cases offs with
    | nil => simp at hlen
    | cons o offs =>
      simp only [List.length_cons, Nat.add_right_cancel_iff] at hlen
      simp only [exchanges, recvCount_append, recvCount_exchange, ih offs hlen, List.length_cons]
      omega

/-- An iteration in which `Recv` reports an error ends the stream with that error. -/
theorem ProduceStream_recv_error (s : Config) (stream : Log_ProduceStreamServer) (fuel : Nat)
    (h : Trace) (e : Error) (hrecv : stream.Recv h = .error e) :
    ProduceStream s stream (fuel + 1) h = (.returned (some e), h ++ [Event.recv (.error e)]) := by
  simp only [ProduceStream, hrecv]

/-- An iteration in which the authorizer denies ends the stream with the denial. -/
theorem ProduceStream_denied (s : Config) (stream : Log_ProduceStreamServer) (fuel : Nat)
    (h : Trace) (id : String) (req : ProduceRequest) (e : Error)
    (hid : subject stream.Context = some id) (hrecv : stream.Recv h = .ok req)
    (hauth : s.Authorizer.Authorize (h ++ [Event.recv (.ok req)]) id "*" "produce" = some e) :
    ProduceStream s stream (fuel + 1) h
      = (.returned (some e),
          h ++ [Event.recv (.ok req), Event.authorize id "*" "produce" (some e)]) := by
  simp [ProduceStream, Produce, hrecv, hid, objectWildcard, produceAction, hauth]

/-- An iteration in which `Append` fails ends the stream with the error of `Append`. -/
theorem ProduceStream_append_error (s : Config) (stream : Log_ProduceStreamServer) (fuel : Nat)
    (h : Trace) (id : String) (req : ProduceRequest) (e : Error)
    (hid : subject stream.Context = some id) (hrecv : stream.Recv h = .ok req)
    (hauth : s.Authorizer.Authorize (h ++ [Event.recv (.ok req)]) id "*" "produce" = none)
    (happ : s.CommitLog.Append
      (h ++ [Event.recv (.ok req), Event.authorize id "*" "produce" none]) req.Record
        = .error e) :
    ProduceStream s stream (fuel + 1) h
      = (.returned (some e),
          h ++ [Event.recv (.ok req), Event.authorize id "*" "produce" none,
            Event.append req.Record (.error e)]) := by
  simp [ProduceStream, Produce, hrecv, hid, objectWildcard, produceAction, hauth, happ]

/-- An iteration in which everything succeeds makes the four calls of `exchange` and goes
on with the next iteration. -/
theorem ProduceStream_exchange (s : Config) (stream : Log_ProduceStreamServer) (fuel : Nat)
    (h : Trace) (id : String) (req : ProduceRequest) (o : Nat)
    (hid : subject stream.Context = some id) (hrecv : stream.Recv h = .ok req)
    (hauth : s.Authorizer.Authorize (h ++ [Event.recv (.ok req)]) id "*" "produce" = none)
    (happ : s.CommitLog.Append
      (h ++ [Event.recv (.ok req), Event.authorize id "*" "produce" none]) req.Record = .ok o)
    (hsend : stream.Send
      (h ++ [Event.recv (.ok req), Event.authorize id "*" "produce" none,
        Event.append req.Record (.ok o)]) { Offset := o } = none) :
    ProduceStream s stream (fuel + 1) h = ProduceStream s stream fuel (h ++ exchange id req o) := by
  simp [ProduceStream, Produce, hrecv, hid, objectWildcard, produceAction, hauth, happ, hsend,
    exchange]

/-- As long as the log accepts, `assigned` holds one offset for each request. -/
theorem assigned_cons (s : Config) (id : String) (h : Trace) (req : ProduceRequest)
    (reqs : List ProduceRequest) (o : Nat)
    (happ : s.CommitLog.Append
      (h ++ [Event.recv (.ok req), Event.authorize id "*" "produce" none]) req.Record = .ok o) :
    assigned s id h (req :: reqs) = o :: assigned s id (h ++ exchange id req o) reqs := by
  simp [assigned, happ]

/-- While the collaborators answer the requests `reqs` successfully, the stream makes the
calls `exchanges id reqs offs`, where `offs` are the offsets that the log assigns, and
then goes on as if it had been started after them. -/
theorem ProduceStream_serve (s : Config) (stream : Log_ProduceStreamServer) (id : String)
    (hid : subject stream.Context = some id) (reqs : List ProduceRequest) :
    ∀ h0 : Trace,
      (∀ t r, reqs[recvCount t]? = some r → stream.Recv (h0 ++ t) = .ok r) →
      (∀ t, recvCount t ≤ reqs.length →
        s.Authorizer.Authorize (h0 ++ t) id "*" "produce" = none) →
      (∀ t r, recvCount t ≤ reqs.length → ∃ o, s.CommitLog.Append (h0 ++ t) r = .ok o) →
      (∀ t m, recvCount t ≤ reqs.length → stream.Send (h0 ++ t) m = none) →
      (assigned s id h0 reqs).length = reqs.length ∧
        ∀ fuel, ProduceStream s stream (reqs.length + fuel) h0
          = ProduceStream s stream fuel (h0 ++ exchanges id reqs (assigned s id h0 reqs)) := by
  induction reqs with
  | nil =>
    intro h0 _ _ _ _
    exact ⟨rfl, fun fuel => by simp [exchanges, assigned]⟩
  | cons req reqs ih =>
    intro h0 hRecv hAuth hApp hSend
    have hR : stream.Recv h0 = .ok req := by
      simpa using hRecv [] req (by simp [recvCount])
    have hA : s.Authorizer.Authorize (h0 ++ [Event.recv (.ok req)]) id "*" "produce" = none :=
      hAuth _ (by simp [recvCount, Event.isRecv])
    obtain ⟨o, hO⟩ := hApp [Event.recv (.ok req), Event.authorize id "*" "produce" none]
      req.Record (by simp [recvCount, Event.isRecv])
    have hS := hSend [Event.recv (.ok req), Event.authorize id "*" "produce" none,
      Event.append req.Record (.ok o)] { Offset := o } (by simp [recvCount, Event.isRecv])
    have hshift : ∀ t, recvCount (exchange id req o ++ t) = recvCount t + 1 := by
      intro t
      rw [recvCount_append, recvCount_exchange, Nat.add_comm]
    obtain ⟨hlen, hrun⟩ := ih (h0 ++ exchange id req o)
      (by
        intro t r hr
        have := hRecv (exchange id req o ++ t) r (by rw [hshift]; simpa using hr)
        simpa [List.append_assoc] using this)
      (by
        intro t ht
        have := hAuth (exchange id req o ++ t) (by rw [hshift]; simpa using ht)
        simpa [List.append_assoc] using this)
      (by
        intro t r ht
        have := hApp (exchange id req o ++ t) r (by rw [hshift]; simpa using ht)
        simpa [List.append_assoc] using this)
      (by
        intro t m ht
        have := hSend (exchange id req o ++ t) m (by rw [hshift]; simpa using ht)
        simpa [List.append_assoc] using this)
    rw [assigned_cons s id h0 req reqs o hO]
    refine ⟨by simp [hlen], fun fuel => ?_⟩
    have hfuel : (req :: reqs).length + fuel = (reqs.length + fuel) + 1 := by
      simp only [List.length_cons]; omega
    rw [hfuel, ProduceStream_exchange s stream _ h0 id req o hid hR hA hO hS, hrun fuel]
    simp [exchanges, List.append_assoc]

/-- When the caller sends `reqs`, the receive operation reports `e` afterwards, and every
authorization, append and send succeeds, the stream makes one complete exchange for each
request, with the offset that the log assigns, then the receive that reports `e`, and
returns `e`. -/
theorem ProduceStream_all_served (s : Config) (stream : Log_ProduceStreamServer) (id : String)
    (h0 : Trace) (hid : subject stream.Context = some id)
    (reqs : List ProduceRequest) (e : Error)
    (hRecv : ∀ t, stream.Recv (h0 ++ t) = inbound reqs e (recvCount t))
    (hAuth : ∀ h, s.Authorizer.Authorize h id "*" "produce" = none)
    (hApp : ∀ h r, ∃ o, s.CommitLog.Append h r = .ok o)
    (hSend : ∀ h m, stream.Send h m = none) :
    (assigned s id h0 reqs).length = reqs.length ∧
      ∀ fuel, ProduceStream s stream (reqs.length + 1 + fuel) h0
        = (.returned (some e),
            h0 ++ exchanges id reqs (assigned s id h0 reqs) ++ [Event.recv (.error e)]) := by
  obtain ⟨hlen, hrun⟩ := ProduceStream_serve s stream id hid reqs h0
    (by
      intro t r hr
      rw [hRecv t]
      simp [inbound, hr])
    (fun t _ => hAuth _) (fun t r _ => hApp _ r) (fun t m _ => hSend _ m)
  refine ⟨hlen, fun fuel => ?_⟩
  have hend : stream.Recv (h0 ++ exchanges id reqs (assigned s id h0 reqs)) = .error e := by
    rw [hRecv, recvCount_exchanges id reqs _ hlen]
    simp [inbound]
  rw [Nat.add_assoc, hrun (1 + fuel), Nat.add_comm 1 fuel,
    ProduceStream_recv_error s stream fuel _ e hend]

/-- When the requests `pre` are served and the authorizer denies the next request `req`
with `e`, the stream makes the complete exchanges for `pre`, receives `req`, asks the
authorizer, and returns `e`. -/
theorem ProduceStream_denied_after (s : Config) (stream : Log_ProduceStreamServer)
    (id : String) (h0 : Trace) (hid : subject stream.Context = some id)
    (pre : List ProduceRequest) (req : ProduceRequest) (e : Error)
    (hRecv : ∀ t r, (pre ++ [req])[recvCount t]? = some r → stream.Recv (h0 ++ t) = .ok r)
    (hAuth : ∀ t, recvCount t ≤ pre.length →
      s.Authorizer.Authorize (h0 ++ t) id "*" "produce" = none)
    (hApp : ∀ t r, recvCount t ≤ pre.length → ∃ o, s.CommitLog.Append (h0 ++ t) r = .ok o)
    (hSend : ∀ h m, stream.Send h m = none)
    (hDeny : ∀ t, recvCount t = pre.length + 1 →
      s.Authorizer.Authorize (h0 ++ t) id "*" "produce" = some e) :
    (assigned s id h0 pre).length = pre.length ∧
      ∀ fuel, ProduceStream s stream (pre.length + 1 + fuel) h0
        = (.returned (some e),
            h0 ++ exchanges id pre (assigned s id h0 pre)
              ++ [Event.recv (.ok req), Event.authorize id "*" "produce" (some e)]) := by
  obtain ⟨hlen, hrun⟩ := ProduceStream_serve s stream id hid pre h0
    (by
      intro t r hr
      refine hRecv t r ?_
      have hlt : recvCount t < pre.length := by
        by_contra hge
        rw [List.getElem?_eq_none (by omega)] at hr
        cases hr
      rw [List.getElem?_append_left hlt]
      exact hr)
    hAuth hApp (fun t m _ => hSend _ m)
  have hcnt : recvCount (exchanges id pre (assigned s id h0 pre)) = pre.length :=
    recvCount_exchanges id pre _ hlen
  have hR : stream.Recv (h0 ++ exchanges id pre (assigned s id h0 pre)) = .ok req :=
    hRecv _ req (by rw [hcnt]; simp)
  have hA := hDeny (exchanges id pre (assigned s id h0 pre) ++ [Event.recv (.ok req)])
    (by rw [recvCount_append, hcnt]; simp [recvCount, Event.isRecv])
  rw [← List.append_assoc] at hA
  refine ⟨hlen, fun fuel => ?_⟩
  rw [Nat.add_assoc, hrun (1 + fuel), Nat.add_comm 1 fuel,
    ProduceStream_denied s stream fuel _ id req e hid hR hA]

/-- When the requests `pre` are served and the log refuses the record of the next request
`req` with `e`, the stream makes the complete exchanges for `pre`, receives `req`, asks
the authorizer, calls `Append`, and returns `e`. -/
theorem ProduceStream_append_failed_after (s : Config) (stream : Log_ProduceStreamServer)
    (id : String) (h0 : Trace) (hid : subject stream.Context = some id)
    (pre : List ProduceRequest) (req : ProduceRequest) (e : Error)
    (hRecv : ∀ t r, (pre ++ [req])[recvCount t]? = some r → stream.Recv (h0 ++ t) = .ok r)
    (hAuth : ∀ t, recvCount t ≤ pre.length + 1 →
      s.Authorizer.Authorize (h0 ++ t) id "*" "produce" = none)
    (hApp : ∀ t r, recvCount t ≤ pre.length → ∃ o, s.CommitLog.Append (h0 ++ t) r = .ok o)
    (hSend : ∀ h m, stream.Send h m = none)
    (hErr : ∀ t r, recvCount t = pre.length + 1 →
      s.CommitLog.Append (h0 ++ t) r = .error e) :
    (assigned s id h0 pre).length = pre.length ∧
      ∀ fuel, ProduceStream s stream (pre.length + 1 + fuel) h0
        = (.returned (some e),
            h0 ++ exchanges id pre (assigned s id h0 pre)
              ++ [Event.recv (.ok req), Event.authorize id "*" "produce" none,
                Event.append req.Record (.error e)]) := by
  obtain ⟨hlen, hrun⟩ := ProduceStream_serve s stream id hid pre h0
    (by
      intro t r hr
      refine hRecv t r ?_
      have hlt : recvCount t < pre.length := by
        by_contra hge
        rw [List.getElem?_eq_none (by omega)] at hr
        cases hr
      rw [List.getElem?_append_left hlt]
      exact hr)
    (fun t ht => hAuth t (by omega)) hApp (fun t m _ => hSend _ m)
  have hcnt : recvCount (exchanges id pre (assigned s id h0 pre)) = pre.length :=
    recvCount_exchanges id pre _ hlen
  have hR : stream.Recv (h0 ++ exchanges id pre (assigned s id h0 pre)) = .ok req :=
    hRecv _ req (by rw [hcnt]; simp)
  have hA := hAuth (exchanges id pre (assigned s id h0 pre) ++ [Event.recv (.ok req)])
    (by rw [recvCount_append, hcnt]; simp [recvCount, Event.isRecv])
  rw [← List.append_assoc] at hA
  have hO := hErr
    (exchanges id pre (assigned s id h0 pre)
      ++ [Event.recv (.ok req), Event.authorize id "*" "produce" none])
    req.Record (by rw [recvCount_append, hcnt]; simp [recvCount, Event.isRecv])
  rw [← List.append_assoc] at hO
  refine ⟨hlen, fun fuel => ?_⟩
  rw [Nat.add_assoc, hrun (1 + fuel), Nat.add_comm 1 fuel,
    ProduceStream_append_error s stream fuel _ id req e hid hR hA hO]

/-- C4: on a produce stream on which every send succeeds.  (1) When the caller sends the
`K` requests `reqs`, after which the receive operation reports `e`, and all
authorizations and appends succeed, the calls of the stream are, in this order and with
nothing in between, for each request in turn: receive it, authorize, append its record,
send the response that carries the offset which `s.CommitLog.Append` answered for that
record (`assigned`); then the receive that reports `e`.  So exactly `K` responses are
sent, in the order of the requests, each before the next request is received.  (2) When
the requests `pre` are served and the authorization for the next request `req` (number
`j = pre.length + 1`) fails with `e`, the calls are the `j - 1` complete exchanges for
`pre`, the receipt of `req` and the failing authorization; (3) when instead the append
for `req` fails with `e`, they are the `j - 1` complete exchanges, the receipt of `req`,
its authorization and the failing append.  In both cases nothing is sent for `req`,
nothing is received after it, and the stream returns `e`. -/
theorem ProduceStream_paired (s : Config) (stream : Log_ProduceStreamServer) (id : String)
    (h0 : Trace) (hid : subject stream.Context = some id)
    (hSend : ∀ h m, stream.Send h m = none) :
    (∀ (reqs : List ProduceRequest) (e : Error),
      (∀ t, stream.Recv (h0 ++ t) = inbound reqs e (recvCount t)) →
      (∀ h, s.Authorizer.Authorize h id "*" "produce" = none) →
      (∀ h r, ∃ o, s.CommitLog.Append h r = .ok o) →
      (assigned s id h0 reqs).length = reqs.length ∧
        ∀ fuel, ProduceStream s stream (reqs.length + 1 + fuel) h0
          = (.returned (some e),
              h0 ++ exchanges id reqs (assigned s id h0 reqs)
                ++ [Event.recv (.error e)])) ∧
    (∀ (pre : List ProduceRequest) (req : ProduceRequest) (e : Error),
      (∀ t r, (pre ++ [req])[recvCount t]? = some r → stream.Recv (h0 ++ t) = .ok r) →
      (∀ t, recvCount t ≤ pre.length →
        s.Authorizer.Authorize (h0 ++ t) id "*" "produce" = none) →
      (∀ t r, recvCount t ≤ pre.length → ∃ o, s.CommitLog.Append (h0 ++ t) r = .ok o) →
      (∀ t, recvCount t = pre.length + 1 →
        s.Authorizer.Authorize (h0 ++ t) id "*" "produce" = some e) →
      (assigned s id h0 pre).length = pre.length ∧
        ∀ fuel, ProduceStream s stream (pre.length + 1 + fuel) h0
          = (.returned (some e),
              h0 ++ exchanges id pre (assigned s id h0 pre)
                ++ [Event.recv (.ok req), Event.authorize id "*" "produce" (some e)])) ∧
    (∀ (pre : List ProduceRequest) (req : ProduceRequest) (e : Error),
      (∀ t r, (pre ++ [req])[recvCount t]? = some r → stream.Recv (h0 ++ t) = .ok r) →
      (∀ t, recvCount t ≤ pre.length + 1 →
        s.Authorizer.Authorize (h0 ++ t) id "*" "produce" = none) →
      (∀ t r, recvCount t ≤ pre.length → ∃ o, s.CommitLog.Append (h0 ++ t) r = .ok o) →
      (∀ t r, recvCount t = pre.length + 1 →
        s.CommitLog.Append (h0 ++ t) r = .error e) →
      (assigned s id h0 pre).length = pre.length ∧
        ∀ fuel, ProduceStream s stream (pre.length + 1 + fuel) h0
          = (.returned (some e),
              h0 ++ exchanges id pre (assigned s id h0 pre)
                ++ [Event.recv (.ok req), Event.authorize id "*" "produce" none,
                  Event.append req.Record (.error e)])) := by
  refine ⟨?_, ?_, ?_⟩
  · intro reqs e hRecv hAuth hApp
    exact ProduceStream_all_served s stream id h0 hid reqs e hRecv hAuth hApp hSend
  · intro pre req e hRecv hAuth hApp hDeny
    exact ProduceStream_denied_after s stream id h0 hid pre req e hRecv hAuth hApp hSend hDeny
  · intro pre req e hRecv hAuth hApp hErr
    exact ProduceStream_append_failed_after s stream id h0 hid pre req e hRecv hAuth hApp hSend
      hErr

theorem ProduceStream_paired_witness :
    ProduceStream ⟨baseLog 7, allowAll⟩ (listStream [⟨rec1⟩, ⟨rec2⟩] rootCtx) (2 + 1 + 0) []
        = (.returned (some .EOF),
            [Event.recv (.ok ⟨rec1⟩), Event.authorize "root" "*" "produce" none,
              Event.append rec1 (.ok 7), Event.send ⟨7⟩ none,
              Event.recv (.ok ⟨rec2⟩), Event.authorize "root" "*" "produce" none,
              Event.append rec2 (.ok 8), Event.send ⟨8⟩ none,
              Event.recv (.error .EOF)]) ∧
      ProduceStream ⟨baseLog 7, allowFirst 1⟩ (listStream [⟨rec1⟩, ⟨rec2⟩] rootCtx)
          (1 + 1 + 0) []
        = (.returned (some (.Status 7 "permission denied")),
            [Event.recv (.ok ⟨rec1⟩), Event.authorize "root" "*" "produce" none,
              Event.append rec1 (.ok 7), Event.send ⟨7⟩ none,
              Event.recv (.ok ⟨rec2⟩),
              Event.authorize "root" "*" "produce"
                (some (.Status 7 "permission denied"))]) ∧
      ProduceStream ⟨fullAfter 1, allowAll⟩ (listStream [⟨rec1⟩, ⟨rec2⟩] rootCtx)
          (1 + 1 + 0) []
        = (.returned (some (.Other "log is full")),
            [Event.recv (.ok ⟨rec1⟩), Event.authorize "root" "*" "produce" none,
              Event.append rec1 (.ok 0), Event.send ⟨0⟩ none,
              Event.recv (.ok ⟨rec2⟩), Event.authorize "root" "*" "produce" none,
              Event.append rec2 (.error (.Other "log is full"))]) :=
  ⟨((ProduceStream_paired ⟨baseLog 7, allowAll⟩ (listStream [⟨rec1⟩, ⟨rec2⟩] rootCtx) "root" []
      rfl (fun _ _ => rfl)).1 [⟨rec1⟩, ⟨rec2⟩] .EOF (fun _ => rfl) (fun _ => rfl)
      (fun _ _ => ⟨_, rfl⟩)).2 0,
    ((ProduceStream_paired ⟨baseLog 7, allowFirst 1⟩ (listStream [⟨rec1⟩, ⟨rec2⟩] rootCtx)
      "root" [] rfl (fun _ _ => rfl)).2.1 [⟨rec1⟩] ⟨rec2⟩ (.Status 7 "permission denied")
      (fun t r hr => by
        simp only [listStream, inbound, List.nil_append]
        simp only [List.cons_append, List.nil_append] at hr
        rw [hr])
      (fun t ht => by
        simp only [allowFirst, List.nil_append, List.length_cons, List.length_nil] at ht ⊢
        simp [ht])
      (fun _ _ _ => ⟨_, rfl⟩)
      (fun t ht => by
        simp only [allowFirst, List.nil_append, List.length_cons, List.length_nil] at ht ⊢
        simp [ht])).2 0,
    ((ProduceStream_paired ⟨fullAfter 1, allowAll⟩ (listStream [⟨rec1⟩, ⟨rec2⟩] rootCtx)
      "root" [] rfl (fun _ _ => rfl)).2.2 [⟨rec1⟩] ⟨rec2⟩ (.Other "log is full")
      (fun t r hr => by
        simp only [listStream, inbound, List.nil_append]
        simp only [List.cons_append, List.nil_append] at hr
        rw [hr])
      (fun _ _ => rfl)
      (fun t r ht => by
        simp only [fullAfter, List.nil_append, List.length_cons, List.length_nil] at ht ⊢
        simp [ht])
      (fun t r ht => by
        simp only [fullAfter, List.nil_append, List.length_cons, List.length_nil] at ht ⊢
        simp [ht])).2 0⟩

/-- C5 (amended): when the caller's input on a produce stream ends, the receive operation
reports `io.EOF`, and `ProduceStream` stops there and returns that error value `io.EOF`
(not nil).  (1) In every state of the stream, an iteration whose `Recv` reports `io.EOF`
makes no other call and returns `io.EOF`.  (2) For every number of requests that are
handled successfully before the end of the input, the stream makes one complete exchange
for each of them, then the `Recv` call that reports `io.EOF`, and returns `io.EOF`. -/
theorem ProduceStream_end_of_input (s : Config) (stream : Log_ProduceStreamServer) :
    (∀ (fuel : Nat) (h : Trace), stream.Recv h = .error .EOF →
      ProduceStream s stream (fuel + 1) h
        = (.returned (some .EOF), h ++ [Event.recv (.error .EOF)])) ∧
    (∀ (id : String) (h0 : Trace) (reqs : List ProduceRequest),
      subject stream.Context = some id →
      (∀ t, stream.Recv (h0 ++ t) = inbound reqs .EOF (recvCount t)) →
      (∀ h, s.Authorizer.Authorize h id "*" "produce" = none) →
      (∀ h r, ∃ o, s.CommitLog.Append h r = .ok o) →
      (∀ h m, stream.Send h m = none) →
      ∀ fuel,
        (ProduceStream s stream (reqs.length + 1 + fuel) h0).1 = .returned (some .EOF) ∧
          ∃ offs : List Nat, offs.length = reqs.length ∧
            (ProduceStream s stream (reqs.length + 1 + fuel) h0).2
              = h0 ++ exchanges id reqs offs ++ [Event.recv (.error .EOF)]) := by
  refine ⟨?_, ?_⟩
  · intro fuel h hrecv
    exact ProduceStream_recv_error s stream fuel h .EOF hrecv
  · intro id h0 reqs hid hRecv hAuth hApp hSend fuel
    obtain ⟨hlen, hrun⟩ :=
      ProduceStream_all_served s stream id h0 hid reqs .EOF hRecv hAuth hApp hSend
    rw [hrun fuel]
    exact ⟨rfl, assigned s id h0 reqs, hlen, rfl⟩

theorem ProduceStream_end_of_input_witness :
    ProduceStream ⟨memLog, allowAll⟩ (listStream [⟨rec1⟩] rootCtx) (0 + 1)
        (exchange "root" ⟨rec1⟩ 0)
      = (.returned (some .EOF), exchange "root" ⟨rec1⟩ 0 ++ [Event.recv (.error .EOF)]) ∧
    (ProduceStream ⟨memLog, allowAll⟩ (listStream [⟨rec1⟩, ⟨rec2⟩] rootCtx) (2 + 1 + 4) []).1
      = .returned (some .EOF) :=
  ⟨(ProduceStream_end_of_input ⟨memLog, allowAll⟩ (listStream [⟨rec1⟩] rootCtx)).1 0
      (exchange "root" ⟨rec1⟩ 0) rfl,
    ((ProduceStream_end_of_input ⟨memLog, allowAll⟩
      (listStream [⟨rec1⟩, ⟨rec2⟩] rootCtx)).2 "root" [] [⟨rec1⟩, ⟨rec2⟩] rfl
      (fun _ => rfl) (fun _ => rfl) (fun _ _ => ⟨_, rfl⟩) (fun _ _ => rfl) 4).1⟩

/-- C5 fails as stated: on a stream whose caller closes its side, at once or after one
request has been handled, `ProduceStream` returns the error `io.EOF`, not nil. -/
theorem ProduceStream_end_of_input_returns_EOF :
    ProduceStream ⟨memLog, allowAll⟩ (listStream [] rootCtx) 1 []
        = (.returned (some .EOF), [Event.recv (.error .EOF)]) ∧
      (ProduceStream ⟨memLog, allowAll⟩ (listStream [] rootCtx) 1 []).1 ≠ .returned none ∧
      ProduceStream ⟨memLog, allowAll⟩ (listStream [⟨rec1⟩] rootCtx) 2 []
        = (.returned (some .EOF),
            [Event.recv (.ok ⟨rec1⟩), Event.authorize "root" "*" "produce" none,
              Event.append rec1 (.ok 0), Event.send ⟨0⟩ none, Event.recv (.error .EOF)]) ∧
      (ProduceStream ⟨memLog, allowAll⟩ (listStream [⟨rec1⟩] rootCtx) 2 []).1
        ≠ .returned none :=
  ⟨rfl, by decide, rfl, by decide⟩

/-! ## The consume stream -/

theorem sentMsgs_append (a b : Trace) : sentMsgs (a ++ b) = sentMsgs a ++ sentMsgs b := by
  simp [sentMsgs]

/-- An iteration that finds the context cancelled ends the stream with nil. -/
theorem ConsumeStream_done (s : Config) (stream : Log_ConsumeStreamServer) (fuel : Nat)
    (req : ConsumeRequest) (h : Trace) (hdone : stream.Context.Done h = true) :
    ConsumeStream s stream (fuel + 1) req h = (.returned none, req, h ++ [Event.done true]) := by
  simp [ConsumeStream, hdone]

/-- An iteration in which the authorizer denies with an error that is not of type
`ErrOffsetOutOfRange` ends the stream with the denial. -/
theorem ConsumeStream_denied (s : Config) (stream : Log_ConsumeStreamServer) (fuel : Nat)
    (req : ConsumeRequest) (h : Trace) (id : String) (e : Error)
    (hid : subject stream.Context = some id) (hdone : stream.Context.Done h = false)
    (hauth : s.Authorizer.Authorize (h ++ [Event.done false]) id "*" "consume" = some e)
    (hne : e.isOffsetOutOfRange = false) :
    ConsumeStream s stream (fuel + 1) req h
      = (.returned (some e), req,
          h ++ [Event.done false, Event.authorize id "*" "consume" (some e)]) := by
  cases e <;>
    simp_all [ConsumeStream, Consume, objectWildcard, consumeAction, Error.isOffsetOutOfRange]

/-- An iteration in which the authorizer denies with an error of type
`ErrOffsetOutOfRange` is followed by the next iteration, at the same offset. -/
theorem ConsumeStream_denied_retry (s : Config) (stream : Log_ConsumeStreamServer) (fuel : Nat)
    (req : ConsumeRequest) (h : Trace) (id : String) (x : Nat)
    (hid : subject stream.Context = some id) (hdone : stream.Context.Done h = false)
    (hauth : s.Authorizer.Authorize (h ++ [Event.done false]) id "*" "consume"
      = some (.ErrOffsetOutOfRange x)) :
    ConsumeStream s stream (fuel + 1) req h
      = ConsumeStream s stream fuel req
          (h ++ [Event.done false,
            Event.authorize id "*" "consume" (some (.ErrOffsetOutOfRange x))]) := by
  simp [ConsumeStream, Consume, hid, hdone, hauth, objectWildcard, consumeAction]

/-- An iteration in which `Read` fails with an error that is not of type
`ErrOffsetOutOfRange` ends the stream with that error. -/
theorem ConsumeStream_read_error (s : Config) (stream : Log_ConsumeStreamServer) (fuel : Nat)
    (req : ConsumeRequest) (h : Trace) (id : String) (e : Error)
    (hid : subject stream.Context = some id) (hdone : stream.Context.Done h = false)
    (hauth : s.Authorizer.Authorize (h ++ [Event.done false]) id "*" "consume" = none)
    (hread : s.CommitLog.Read
      (h ++ [Event.done false, Event.authorize id "*" "consume" none]) req.Offset = .error e)
    (hne : e.isOffsetOutOfRange = false) :
    ConsumeStream s stream (fuel + 1) req h
      = (.returned (some e), req,
          h ++ [Event.done false, Event.authorize id "*" "consume" none,
            Event.read req.Offset (.error e)]) := by
  cases e <;>
    simp_all [ConsumeStream, Consume, objectWildcard, consumeAction, Error.isOffsetOutOfRange]

/-- An iteration in which `Read` yields an error of type `ErrOffsetOutOfRange` sends
nothing and is followed by the next iteration, at the same offset. -/
theorem ConsumeStream_retry (s : Config) (stream : Log_ConsumeStreamServer) (fuel : Nat)
    (req : ConsumeRequest) (h : Trace) (id : String) (x : Nat)
    (hid : subject stream.Context = some id) (hdone : stream.Context.Done h = false)
    (hauth : s.Authorizer.Authorize (h ++ [Event.done false]) id "*" "consume" = none)
    (hread : s.CommitLog.Read
      (h ++ [Event.done false, Event.authorize id "*" "consume" none]) req.Offset
        = .error (.ErrOffsetOutOfRange x)) :
    ConsumeStream s stream (fuel + 1) req h
      = ConsumeStream s stream fuel req (h ++ retry id req.Offset x) := by
  simp [ConsumeStream, Consume, hid, hdone, hauth, hread, objectWildcard, consumeAction, retry]

/-- An iteration in which `SendMsg` fails ends the stream with the error of `SendMsg`;
the offset of the request is not changed. -/
theorem ConsumeStream_send_error (s : Config) (stream : Log_ConsumeStreamServer) (fuel : Nat)
    (req : ConsumeRequest) (h : Trace) (id : String) (r : Record) (e : Error)
    (hid : subject stream.Context = some id) (hdone : stream.Context.Done h = false)
    (hauth : s.Authorizer.Authorize (h ++ [Event.done false]) id "*" "consume" = none)
    (hread : s.CommitLog.Read
      (h ++ [Event.done false, Event.authorize id "*" "consume" none]) req.Offset = .ok r)
    (hsend : stream.SendMsg
      (h ++ [Event.done false, Event.authorize id "*" "consume" none,
        Event.read req.Offset (.ok r)]) { Record := r } = some e) :
    ConsumeStream s stream (fuel + 1) req h
      = (.returned (some e), req,
          h ++ [Event.done false, Event.authorize id "*" "consume" none,
            Event.read req.Offset (.ok r), Event.sendMsg { Record := r } (some e)]) := by
  simp [ConsumeStream, Consume, hid, hdone, hauth, hread, hsend, objectWildcard, consumeAction]

/-- An iteration in which everything succeeds makes the four calls of `delivery` and is
followed by the next iteration, at the next offset. -/
theorem ConsumeStream_delivery (s : Config) (stream : Log_ConsumeStreamServer) (fuel : Nat)
    (req : ConsumeRequest) (h : Trace) (id : String) (r : Record)
    (hid : subject stream.Context = some id) (hdone : stream.Context.Done h = false)
    (hauth : s.Authorizer.Authorize (h ++ [Event.done false]) id "*" "consume" = none)
    (hread : s.CommitLog.Read
      (h ++ [Event.done false, Event.authorize id "*" "consume" none]) req.Offset = .ok r)
    (hsend : stream.SendMsg
      (h ++ [Event.done false, Event.authorize id "*" "consume" none,
        Event.read req.Offset (.ok r)]) { Record := r } = none) :
    ConsumeStream s stream (fuel + 1) req h
      = ConsumeStream s stream fuel { Offset := (req.Offset + 1) % 2 ^ 64 }
          (h ++ delivery id req.Offset r) := by
  simp [ConsumeStream, Consume, hid, hdone, hauth, hread, hsend, objectWildcard, consumeAction,
    delivery]

/-- Every run of `ConsumeStream` has one of the shapes of `ConsumeRun`. -/
theorem ConsumeStream_run (s : Config) (stream : Log_ConsumeStreamServer) (id : String)
    (hid : subject stream.Context = some id) :
    ∀ (fuel : Nat) (req : ConsumeRequest) (h : Trace), ∃ t ex c1,
      ConsumeStream s stream fuel req h = (ex, { Offset := c1 }, h ++ t) ∧
        ConsumeRun id req.Offset t ex c1 := by
  intro fuel
  induction fuel with
  | zero =>
    intro req h
    exact ⟨[], .running, req.Offset, by simp [ConsumeStream], .running _⟩
  | succ fuel ih =>
    intro req h
    cases hD : stream.Context.Done h with
    | true =>
      exact ⟨_, _, req.Offset, ConsumeStream_done s stream fuel req h hD, .cancelled _⟩
    | false =>
      cases hA : s.Authorizer.Authorize (h ++ [Event.done false]) id "*" "consume" with
      | some e =>
        cases hE : e.isOffsetOutOfRange with
        | false =>
          exact ⟨_, _, req.Offset, ConsumeStream_denied s stream fuel req h id e hid hD hA hE,
            .denied _ _ hE⟩
        | true =>
          cases e <;> simp [Error.isOffsetOutOfRange] at hE
          rename_i x
          obtain ⟨t, ex, c1, hrun, hshape⟩ := ih req
            (h ++ [Event.done false,
              Event.authorize id "*" "consume" (some (.ErrOffsetOutOfRange x))])
          refine ⟨_, ex, c1, ?_, .deniedRetry _ x t ex c1 hshape⟩
          rw [ConsumeStream_denied_retry s stream fuel req h id x hid hD hA, hrun]
          simp
      | none =>
        cases hR : s.CommitLog.Read
            (h ++ [Event.done false, Event.authorize id "*" "consume" none]) req.Offset with
        | error e =>
          cases hE : e.isOffsetOutOfRange with
          | false =>
            exact ⟨_, _, req.Offset,
              ConsumeStream_read_error s stream fuel req h id e hid hD hA hR hE,
              .readError _ _ hE⟩
          | true =>
            cases e <;> simp [Error.isOffsetOutOfRange] at hE
            rename_i x
            obtain ⟨t, ex, c1, hrun, hshape⟩ := ih req (h ++ retry id req.Offset x)
            refine ⟨_, ex, c1, ?_, .retry _ x t ex c1 hshape⟩
            rw [ConsumeStream_retry s stream fuel req h id x hid hD hA hR, hrun]
            simp [retry]
        | ok r =>
          cases hS : stream.SendMsg
              (h ++ [Event.done false, Event.authorize id "*" "consume" none,
                Event.read req.Offset (.ok r)]) { Record := r } with
          | some e =>
            exact ⟨_, _, req.Offset,
              ConsumeStream_send_error s stream fuel req h id r e hid hD hA hR hS,
              .sendError _ _ _⟩
          | none =>
            obtain ⟨t, ex, c1, hrun, hshape⟩ := ih { Offset := (req.Offset + 1) % 2 ^ 64 }
              (h ++ delivery id req.Offset r)
            refine ⟨_, ex, c1, ?_, .delivery _ r t ex c1 hshape⟩
            rw [ConsumeStream_delivery s stream fuel req h id r hid hD hA hR hS, hrun]
            simp [delivery]

/-- Every run of `ProduceStream` has one of the shapes of `ProduceRun`. -/
theorem ProduceStream_run (s : Config) (stream : Log_ProduceStreamServer) (id : String)
    (hid : subject stream.Context = some id) :
    ∀ (fuel : Nat) (h : Trace), ∃ t ex,
      ProduceStream s stream fuel h = (ex, h ++ t) ∧ ProduceRun id t ex := by
  intro fuel
  induction fuel with
  | zero =>
    intro h
    exact ⟨[], .running, by simp [ProduceStream], .running⟩
  | succ fuel ih =>
    intro h
    cases hR : stream.Recv h with
    | error e => exact ⟨_, _, ProduceStream_recv_error s stream fuel h e hR, .recvError e⟩
    | ok req =>
      cases hA : s.Authorizer.Authorize (h ++ [Event.recv (.ok req)]) id "*" "produce" with
      | some e =>
        exact ⟨_, _, ProduceStream_denied s stream fuel h id req e hid hR hA, .denied req e⟩
      | none =>
        cases hO : s.CommitLog.Append
            (h ++ [Event.recv (.ok req), Event.authorize id "*" "produce" none]) req.Record with
        | error e =>
          exact ⟨_, _, ProduceStream_append_error s stream fuel h id req e hid hR hA hO,
            .appendError req e⟩
        | ok o =>
          cases hS : stream.Send
              (h ++ [Event.recv (.ok req), Event.authorize id "*" "produce" none,
                Event.append req.Record (.ok o)]) { Offset := o } with
          | some e =>
            refine ⟨_, _, ?_, .sendError req o e⟩
            simp [ProduceStream, Produce, hR, hid, objectWildcard, produceAction, hA, hO, hS]
          | none =>
            obtain ⟨t, ex, hrun, hshape⟩ := ih (h ++ exchange id req o)
            refine ⟨_, ex, ?_, .exchange req o t ex hshape⟩
            rw [ProduceStream_exchange s stream fuel h id req o hid hR hA hO hS, hrun]
            simp [exchange]

/-- In a run of `ConsumeStream`, every `Read` call comes directly after a check that found
the context not cancelled and an `Authorize` call that allowed. -/
theorem ConsumeRun.read_guarded {id : String} {c : Nat} {t : Trace} {ex : Exit} {c1 : Nat}
    (run : ConsumeRun id c t ex c1) :
    ∀ (pre : Trace) (off : Nat) (res : Except Error Record) (post : Trace),
      t = pre ++ Event.read off res :: post →
      ∃ pre1, pre = pre1 ++ [Event.done false, Event.authorize id "*" "consume" none] := by
  induction run with
  | running c => intro pre off res post h; simp at h
  | cancelled c => intro pre off res post h; simp [List.cons_eq_append_iff] at h
  | denied c e hne => intro pre off res post h; simp [List.cons_eq_append_iff] at h
  | readError c e hne =>
    intro pre off res post h
    simp [List.cons_eq_append_iff] at h
    obtain ⟨_, rfl, _, rfl, rfl, _⟩ := h
    exact ⟨[], rfl⟩
  | sendError c r e =>
    intro pre off res post h
    simp [List.cons_eq_append_iff] at h
    obtain ⟨_, rfl, _, rfl, rfl, _⟩ := h
    exact ⟨[], rfl⟩
  | deniedRetry c x t ex c1 run ih =>
    intro pre off res post h
    simp [List.cons_eq_append_iff] at h
    obtain ⟨_, rfl, p, rfl, h⟩ := h
    obtain ⟨q, rfl⟩ := ih p off res post h
    exact ⟨_ :: _ :: q, rfl⟩
  | retry c x t ex c1 run ih =>
    intro pre off res post h
    simp [List.cons_eq_append_iff] at h
    obtain ⟨_, rfl, _, rfl, (⟨rfl, _⟩ | ⟨p, rfl, h⟩)⟩ := h
    · exact ⟨[], rfl⟩
    · obtain ⟨q, rfl⟩ := ih p off res post h
      exact ⟨_ :: _ :: _ :: q, rfl⟩
  | delivery c r t ex c1 run ih =>
    intro pre off res post h
    simp [List.cons_eq_append_iff] at h
    obtain ⟨_, rfl, _, rfl, (⟨rfl, _⟩ | ⟨_, rfl, p, rfl, h⟩)⟩ := h
    · exact ⟨[], rfl⟩
    · obtain ⟨q, rfl⟩ := ih p off res post h
      exact ⟨_ :: _ :: _ :: _ :: q, rfl⟩

/-- In a run of `ConsumeStream`, every `Authorize` call comes directly after a check that
found the context not cancelled. -/
theorem ConsumeRun.authorize_after_done {id : String} {c : Nat} {t : Trace} {ex : Exit}
    {c1 : Nat} (run : ConsumeRun id c t ex c1) :
    ∀ (pre : Trace) (sub obj act : String) (err : Option Error) (post : Trace),
      t = pre ++ Event.authorize sub obj act err :: post →
      ∃ pre1, pre = pre1 ++ [Event.done false] := by
  induction run with
  | running c => intro pre sub obj act err post h; simp at h
  | cancelled c => intro pre sub obj act err post h; simp [List.cons_eq_append_iff] at h
  | denied c e hne =>
    intro pre sub obj act err post h
    simp [List.cons_eq_append_iff] at h
    obtain ⟨_, rfl, rfl, _⟩ := h
    exact ⟨[], rfl⟩
  | readError c e hne =>
    intro pre sub obj act err post h
    simp [List.cons_eq_append_iff] at h
    obtain ⟨_, rfl, rfl, _⟩ := h
    exact ⟨[], rfl⟩
  | sendError c r e =>
    intro pre sub obj act err post h
    simp [List.cons_eq_append_iff] at h
    obtain ⟨_, rfl, rfl, _⟩ := h
    exact ⟨[], rfl⟩
  | deniedRetry c x t ex c1 run ih =>
    intro pre sub obj act err post h
    simp [List.cons_eq_append_iff] at h
    obtain ⟨_, rfl, (⟨rfl, _⟩ | ⟨p, rfl, h⟩)⟩ := h
    · exact ⟨[], rfl⟩
    · obtain ⟨q, rfl⟩ := ih p sub obj act err post h
      exact ⟨_ :: _ :: q, rfl⟩
  | retry c x t ex c1 run ih =>
    intro pre sub obj act err post h
    simp [List.cons_eq_append_iff] at h
    obtain ⟨_, rfl, (⟨rfl, _⟩ | ⟨_, rfl, p, rfl, h⟩)⟩ := h
    · exact ⟨[], rfl⟩
    · obtain ⟨q, rfl⟩ := ih p sub obj act err post h
      exact ⟨_ :: _ :: _ :: q, rfl⟩
  | delivery c r t ex c1 run ih =>
    intro pre sub obj act err post h
    simp [List.cons_eq_append_iff] at h
    obtain ⟨_, rfl, (⟨rfl, _⟩ | ⟨_, rfl, _, rfl, p, rfl, h⟩)⟩ := h
    · exact ⟨[], rfl⟩
    · obtain ⟨q, rfl⟩ := ih p sub obj act err post h
      exact ⟨_ :: _ :: _ :: _ :: q, rfl⟩

/-- In a run of `ConsumeStream`, a denial whose error is not of type `ErrOffsetOutOfRange`
is the last call, and the stream returns the error of the denial. -/
theorem ConsumeRun.consume_denial_final {id : String} {c : Nat} {t : Trace} {ex : Exit}
    {c1 : Nat} (run : ConsumeRun id c t ex c1) :
    ∀ (pre : Trace) (sub obj act : String) (e : Error) (post : Trace),
      t = pre ++ Event.authorize sub obj act (some e) :: post →
      e.isOffsetOutOfRange = false →
      post = [] ∧ ex = .returned (some e) := by
  induction run with
  | running c => intro pre sub obj act e post h; simp at h
  | cancelled c => intro pre sub obj act e post h; simp [List.cons_eq_append_iff] at h
  | denied c e0 hne =>
    intro pre sub obj act e post h _
    simp [List.cons_eq_append_iff] at h
    obtain ⟨_, _, _, ⟨_, _, _, rfl⟩, rfl⟩ := h
    exact ⟨rfl, rfl⟩
  | readError c e0 hne => intro pre sub obj act e post h; simp [List.cons_eq_append_iff] at h
  | sendError c r e0 => intro pre sub obj act e post h; simp [List.cons_eq_append_iff] at h
  | deniedRetry c x t ex c1 run ih =>
    intro pre sub obj act e post h hne
    simp [List.cons_eq_append_iff] at h
    obtain ⟨_, rfl, (⟨rfl, ⟨_, _, _, rfl⟩, _⟩ | ⟨p, rfl, h⟩)⟩ := h
    · simp [Error.isOffsetOutOfRange] at hne
    · exact ih p sub obj act e post h hne
  | retry c x t ex c1 run ih =>
    intro pre sub obj act e post h hne
    simp [List.cons_eq_append_iff] at h
    obtain ⟨_, rfl, _, rfl, p, rfl, h⟩ := h
    exact ih p sub obj act e post h hne
  | delivery c r t ex c1 run ih =>
    intro pre sub obj act e post h hne
    simp [List.cons_eq_append_iff] at h
    obtain ⟨_, rfl, _, rfl, _, rfl, p, rfl, h⟩ := h
    exact ih p sub obj act e post h hne

/-- How a run of `ConsumeStream` can end: with nil after a check that found the context
cancelled; or with the error of the last call, which is a denial or a failed `Read` whose
error is not of type `ErrOffsetOutOfRange`, or a failed `SendMsg`. -/
theorem ConsumeRun.exit_cause {id : String} {c : Nat} {t : Trace} {ex : Exit}
    {c1 : Nat} (run : ConsumeRun id c t ex c1) :
    ∀ err, ex = .returned err →
      ∃ (pre : Trace) (last : Event), t = pre ++ [last] ∧
        ((err = none ∧ last = Event.done true) ∨
          ∃ e, err = some e ∧
            ((last = Event.authorize id "*" "consume" (some e) ∧ e.isOffsetOutOfRange = false) ∨
              (∃ off, last = Event.read off (.error e) ∧ e.isOffsetOutOfRange = false) ∨
              (∃ m, last = Event.sendMsg m (some e)))) := by
  induction run with
  | running c => intro err h; cases h
  | cancelled c =>
    intro err h
    cases h
    exact ⟨[], _, rfl, Or.inl ⟨rfl, rfl⟩⟩
  | denied c e hne =>
    intro err h
    cases h
    exact ⟨[_], _, rfl, Or.inr ⟨e, rfl, Or.inl ⟨rfl, hne⟩⟩⟩
  | readError c e hne =>
    intro err h
    cases h
    exact ⟨[_, _], _, rfl, Or.inr ⟨e, rfl, Or.inr (Or.inl ⟨c, rfl, hne⟩)⟩⟩
  | sendError c r e =>
    intro err h
    cases h
    exact ⟨[_, _, _], _, rfl, Or.inr ⟨e, rfl, Or.inr (Or.inr ⟨_, rfl⟩)⟩⟩
  | deniedRetry c x t ex c1 run ih =>
    intro err h
    obtain ⟨pre, last, rfl, hlast⟩ := ih err h
    exact ⟨_ :: _ :: pre, last, rfl, hlast⟩
  | retry c x t ex c1 run ih =>
    intro err h
    obtain ⟨pre, last, rfl, hlast⟩ := ih err h
    exact ⟨_ :: _ :: _ :: pre, last, rfl, hlast⟩
  | delivery c r t ex c1 run ih =>
    intro err h
    obtain ⟨pre, last, rfl, hlast⟩ := ih err h
    exact ⟨_ :: _ :: _ :: _ :: pre, last, rfl, hlast⟩

/-- In a run of `ProduceStream`, every `Append` call comes directly after the receipt of a
request and an `Authorize` call that allowed, and its argument is the record of that
request. -/
theorem ProduceRun.append_guarded {id : String} {t : Trace} {ex : Exit}
    (run : ProduceRun id t ex) :
    ∀ (pre : Trace) (r : Record) (res : Except Error Nat) (post : Trace),
      t = pre ++ Event.append r res :: post →
      ∃ pre1 req, pre = pre1 ++ [Event.recv (.ok req), Event.authorize id "*" "produce" none] ∧
        r = req.Record := by
  induction run with
  | running => intro pre r res post h; simp at h
  | recvError e => intro pre r res post h; simp [List.cons_eq_append_iff] at h
  | denied req e => intro pre r res post h; simp [List.cons_eq_append_iff] at h
  | appendError req e =>
    intro pre r res post h
    simp [List.cons_eq_append_iff] at h
    obtain ⟨_, rfl, _, rfl, rfl, ⟨rfl, _⟩, _⟩ := h
    exact ⟨[], req, rfl, rfl⟩
  | sendError req o e =>
    intro pre r res post h
    simp [List.cons_eq_append_iff] at h
    obtain ⟨_, rfl, _, rfl, rfl, ⟨rfl, _⟩, _⟩ := h
    exact ⟨[], req, rfl, rfl⟩
  | exchange req o t ex run ih =>
    intro pre r res post h
    simp [List.cons_eq_append_iff] at h
    obtain ⟨_, rfl, _, rfl, (⟨rfl, ⟨rfl, _⟩, _⟩ | ⟨_, rfl, p, rfl, h⟩)⟩ := h
    · exact ⟨[], req, rfl, rfl⟩
    · obtain ⟨q, req1, rfl, rfl⟩ := ih p r res post h
      exact ⟨_ :: _ :: _ :: _ :: q, req1, rfl, rfl⟩

/-- In a run of `ProduceStream`, a denial is the last call, and the stream returns the
error of the denial. -/
theorem ProduceRun.produce_denial_final {id : String} {t : Trace} {ex : Exit}
    (run : ProduceRun id t ex) :
    ∀ (pre : Trace) (sub obj act : String) (e : Error) (post : Trace),
      t = pre ++ Event.authorize sub obj act (some e) :: post →
      post = [] ∧ ex = .returned (some e) := by
  induction run with
  | running => intro pre sub obj act e post h; simp at h
  | recvError e0 => intro pre sub obj act e post h; simp [List.cons_eq_append_iff] at h
  | denied req e0 =>
    intro pre sub obj act e post h
    simp [List.cons_eq_append_iff] at h
    obtain ⟨_, _, _, ⟨_, _, _, rfl⟩, rfl⟩ := h
    exact ⟨rfl, rfl⟩
  | appendError req e0 => intro pre sub obj act e post h; simp [List.cons_eq_append_iff] at h
  | sendError req o e0 => intro pre sub obj act e post h; simp [List.cons_eq_append_iff] at h
  | exchange req o t ex run ih =>
    intro pre sub obj act e post h
    simp [List.cons_eq_append_iff] at h
    obtain ⟨_, rfl, _, rfl, _, rfl, p, rfl, h⟩ := h
    exact ih p sub obj act e post h

/-- While the context is not cancelled, the authorizer allows and the log answers every
read of offset `N` with an error of type `ErrOffsetOutOfRange`, the stream stays in its
loop at offset `N` and sends nothing. -/
theorem ConsumeStream_waits (s : Config) (stream : Log_ConsumeStreamServer) (id : String)
    (hid : subject stream.Context = some id) (N : Nat)
    (hDone : ∀ h, stream.Context.Done h = false)
    (hAuth : ∀ h, s.Authorizer.Authorize h id "*" "consume" = none)
    (hRead : ∀ h, ∃ x, s.CommitLog.Read h N = .error (.ErrOffsetOutOfRange x)) :
    ∀ (fuel : Nat) (h0 : Trace),
      (ConsumeStream s stream fuel ⟨N⟩ h0).1 = .running ∧
        (ConsumeStream s stream fuel ⟨N⟩ h0).2.1 = ⟨N⟩ ∧
        sentMsgs (ConsumeStream s stream fuel ⟨N⟩ h0).2.2 = sentMsgs h0 := by
  intro fuel
  induction fuel with
  | zero => intro h0; simp [ConsumeStream]
  | succ fuel ih =>
    intro h0
    obtain ⟨x, hx⟩ := hRead (h0 ++ [Event.done false, Event.authorize id "*" "consume" none])
    rw [ConsumeStream_retry s stream fuel ⟨N⟩ h0 id x hid (hDone _) (hAuth _) hx]
    obtain ⟨h1, h2, h3⟩ := ih (h0 ++ retry id N x)
    refine ⟨h1, h2, ?_⟩
    rw [h3, sentMsgs_append]
    simp [sentMsgs, retry, Event.sentMsg]

/-- While the context is not cancelled, the authorizer allows, every send succeeds, and
the log holds the records `recs` at the offsets `N`, `N + 1`, ..., the stream makes one
complete delivery for each of these records in turn and goes on from the offset after
them. -/
theorem ConsumeStream_deliver (s : Config) (stream : Log_ConsumeStreamServer) (id : String)
    (hid : subject stream.Context = some id)
    (hDone : ∀ h, stream.Context.Done h = false)
    (hAuth : ∀ h, s.Authorizer.Authorize h id "*" "consume" = none)
    (hSend : ∀ h m, stream.SendMsg h m = none) (recs : List Record) :
    ∀ (N : Nat) (h0 : Trace), N < 2 ^ 64 → N + recs.length ≤ 2 ^ 64 →
      (∀ h i r, recs[i]? = some r → s.CommitLog.Read h (N + i) = .ok r) →
      ∀ fuel, ConsumeStream s stream (recs.length + fuel) ⟨N⟩ h0
        = ConsumeStream s stream fuel ⟨(N + recs.length) % 2 ^ 64⟩
            (h0 ++ deliveries id N recs) := by
  induction recs with
  | nil =>
    intro N h0 hN _ _ fuel
    have hmod : N % 2 ^ 64 = N := Nat.mod_eq_of_lt hN
    simp only [List.length_nil, Nat.add_zero, Nat.zero_add, deliveries, List.append_nil, hmod]
  | cons r recs ih =>
    intro N h0 hN hfit hRead fuel
    have hR : s.CommitLog.Read
        (h0 ++ [Event.done false, Event.authorize id "*" "consume" none]) N = .ok r := by
      simpa using hRead _ 0 r (by simp)
    have hstep := ConsumeStream_delivery s stream (recs.length + fuel) ⟨N⟩ h0 id r hid
      (hDone _) (hAuth _) hR (hSend _ _)
    have hfuel : (r :: recs).length + fuel = recs.length + fuel + 1 := by
      simp only [List.length_cons]; omega
    rw [hfuel, hstep]
    simp only [List.length_cons] at hfit ⊢
    by_cases hnil : recs = []
    · subst hnil
      simp [deliveries]
    · have hlen : 0 < recs.length := List.length_pos.mpr hnil
      have hlt : N + 1 < 2 ^ 64 := by omega
      have hread1 : ∀ h i r1, recs[i]? = some r1 → s.CommitLog.Read h (N + 1 + i) = .ok r1 := by
        intro h i r1 hr
        have := hRead h (i + 1) r1 (by simpa using hr)
        rwa [show N + 1 + i = N + (i + 1) by omega]
      rw [Nat.mod_eq_of_lt hlt, ih (N + 1) _ hlt (by omega) hread1 fuel]
      rw [show N + 1 + recs.length = N + (recs.length + 1) by omega]
      simp [deliveries, List.append_assoc]

theorem sentMsgs_deliveries (id : String) (recs : List Record) :
    ∀ N, sentMsgs (deliveries id N recs) = recs.map (fun r => { Record := r }) := by
  induction recs with
  | nil => intro N; simp [deliveries, sentMsgs]
  | cons r recs ih =>
    intro N
    rw [deliveries, sentMsgs_append, ih (N + 1)]
    simp [sentMsgs, delivery, Event.sentMsg]

/-- C6 (amended): in `ConsumeStream`, an `ErrOffsetOutOfRange` result of reading the
current offset is not terminal.  (1) In every iteration in which the context is not
cancelled and the read of the current offset yields `ErrOffsetOutOfRange`, the stream
sends nothing, keeps the offset, and goes on with the next iteration.  (2) So, as long
as the tail has not reached offset `N`, a stream started at `N` stays in its loop at `N`,
for every number of iterations, without sending and without returning.  (3) The stream
ends only with nil after a check that found the context cancelled, or with the error of
its last call, which is a failed `SendMsg`, or a denial or a failed `Read` whose error
is not of type `ErrOffsetOutOfRange`. -/
theorem ConsumeStream_out_of_range_not_terminal (s : Config) (stream : Log_ConsumeStreamServer)
    (id : String) (hid : subject stream.Context = some id) :
    (∀ (fuel : Nat) (req : ConsumeRequest) (h : Trace) (x : Nat),
      stream.Context.Done h = false →
      s.Authorizer.Authorize (h ++ [Event.done false]) id "*" "consume" = none →
      s.CommitLog.Read (h ++ [Event.done false, Event.authorize id "*" "consume" none])
        req.Offset = .error (.ErrOffsetOutOfRange x) →
      ConsumeStream s stream (fuel + 1) req h
        = ConsumeStream s stream fuel req
            (h ++ [Event.done false, Event.authorize id "*" "consume" none,
              Event.read req.Offset (.error (.ErrOffsetOutOfRange x))])) ∧
    (∀ N : Nat,
      (∀ h, stream.Context.Done h = false) →
      (∀ h, s.Authorizer.Authorize h id "*" "consume" = none) →
      (∀ h, ∃ x, s.CommitLog.Read h N = .error (.ErrOffsetOutOfRange x)) →
      ∀ (fuel : Nat) (h0 : Trace),
        (ConsumeStream s stream fuel ⟨N⟩ h0).1 = .running ∧
          (ConsumeStream s stream fuel ⟨N⟩ h0).2.1 = ⟨N⟩ ∧
          sentMsgs (ConsumeStream s stream fuel ⟨N⟩ h0).2.2 = sentMsgs h0) ∧
    (∀ (fuel : Nat) (req : ConsumeRequest) (h0 : Trace) (err : Option Error),
      (ConsumeStream s stream fuel req h0).1 = .returned err →
      ∃ (pre : Trace) (last : Event),
        (ConsumeStream s stream fuel req h0).2.2 = h0 ++ pre ++ [last] ∧
          ((err = none ∧ last = Event.done true) ∨
            ∃ e, err = some e ∧
              ((last = Event.authorize id "*" "consume" (some e) ∧
                  e.isOffsetOutOfRange = false) ∨
                (∃ off, last = Event.read off (.error e) ∧ e.isOffsetOutOfRange = false) ∨
                (∃ m, last = Event.sendMsg m (some e))))) := by
  refine ⟨?_, ?_, ?_⟩
  · intro fuel req h x hD hA hR
    exact ConsumeStream_retry s stream fuel req h id x hid hD hA hR
  · intro N hDone hAuth hRead
    exact ConsumeStream_waits s stream id hid N hDone hAuth hRead
  · intro fuel req h0 err hret
    obtain ⟨t, ex, c1, hrun, hshape⟩ := ConsumeStream_run s stream id hid fuel req h0
    rw [hrun] at hret ⊢
    obtain ⟨pre, last, rfl, hlast⟩ := hshape.exit_cause err hret
    exact ⟨pre, last, by simp, hlast⟩

theorem ConsumeStream_out_of_range_not_terminal_witness :
    (ConsumeStream ⟨fixedLog [rec1], allowAll⟩ (openStream rootCtx) 5 ⟨1⟩ []).1 = .running ∧
      (ConsumeStream ⟨fixedLog [rec1], allowAll⟩ (openStream rootCtx) 5 ⟨1⟩ []).2.1 = ⟨1⟩ ∧
      sentMsgs (ConsumeStream ⟨fixedLog [rec1], allowAll⟩ (openStream rootCtx) 5 ⟨1⟩ []).2.2
        = sentMsgs [] :=
  (ConsumeStream_out_of_range_not_terminal ⟨fixedLog [rec1], allowAll⟩ (openStream rootCtx)
    "root" rfl).2.1 1 (fun _ => rfl) (fun _ => rfl) (fun _ => ⟨1, rfl⟩) 5 []

/-- C6 fails as stated: a stream whose context is not cancelled, whose authorization
succeeded and whose read succeeded ends with an error, the one of the failed `SendMsg`. -/
theorem ConsumeStream_ends_on_send_failure :
    ConsumeStream ⟨fixedLog [rec1], allowAll⟩ (brokenStream rootCtx) 1 ⟨0⟩ []
      = (.returned (some (.Other "transport is closing")), ⟨0⟩,
          [Event.done false, Event.authorize "root" "*" "consume" none,
            Event.read 0 (.ok rec1),
            Event.sendMsg ⟨rec1⟩ (some (.Other "transport is closing"))]) :=
  rfl

/-- C7: while the context is not cancelled and the authorization of "consume" succeeds:
(1) when the log holds the records `recs` at the offsets `N`, ..., `N + k - 1` and every
send succeeds, the first `k` iterations of a stream started at `N` make one complete
delivery for each of these offsets in increasing order, so that the first `k` messages
sent are these records in this order, and the stream goes on at the offset after them;
(2) an iteration whose send succeeds adds one to the offset (in `uint64` arithmetic),
after that send; (3) an iteration whose send fails ends the stream with the error of the
send, without a change of the offset and without another attempt. -/
theorem ConsumeStream_in_order (s : Config) (stream : Log_ConsumeStreamServer) (id : String)
    (hid : subject stream.Context = some id)
    (hDone : ∀ h, stream.Context.Done h = false)
    (hAuth : ∀ h, s.Authorizer.Authorize h id "*" "consume" = none) :
    (∀ (N : Nat) (recs : List Record) (h0 : Trace),
      N < 2 ^ 64 → N + recs.length ≤ 2 ^ 64 →
      (∀ h i r, recs[i]? = some r → s.CommitLog.Read h (N + i) = .ok r) →
      (∀ h m, stream.SendMsg h m = none) →
      ∀ fuel,
        ConsumeStream s stream (recs.length + fuel) ⟨N⟩ h0
            = ConsumeStream s stream fuel ⟨(N + recs.length) % 2 ^ 64⟩
                (h0 ++ deliveries id N recs) ∧
          sentMsgs (deliveries id N recs) = recs.map (fun r => { Record := r }) ∧
          ∃ rest, (ConsumeStream s stream (recs.length + fuel) ⟨N⟩ h0).2.2
            = h0 ++ deliveries id N recs ++ rest) ∧
    (∀ (fuel : Nat) (req : ConsumeRequest) (h : Trace) (r : Record),
      s.CommitLog.Read (h ++ [Event.done false, Event.authorize id "*" "consume" none])
        req.Offset = .ok r →
      stream.SendMsg
        (h ++ [Event.done false, Event.authorize id "*" "consume" none,
          Event.read req.Offset (.ok r)]) { Record := r } = none →
      ConsumeStream s stream (fuel + 1) req h
        = ConsumeStream s stream fuel { Offset := (req.Offset + 1) % 2 ^ 64 }
            (h ++ [Event.done false, Event.authorize id "*" "consume" none,
              Event.read req.Offset (.ok r), Event.sendMsg { Record := r } none])) ∧
    (∀ (fuel : Nat) (req : ConsumeRequest) (h : Trace) (r : Record) (e : Error),
      s.CommitLog.Read (h ++ [Event.done false, Event.authorize id "*" "consume" none])
        req.Offset = .ok r →
      stream.SendMsg
        (h ++ [Event.done false, Event.authorize id "*" "consume" none,
          Event.read req.Offset (.ok r)]) { Record := r } = some e →
      ConsumeStream s stream (fuel + 1) req h
        = (.returned (some e), req,
            h ++ [Event.done false, Event.authorize id "*" "consume" none,
              Event.read req.Offset (.ok r), Event.sendMsg { Record := r } (some e)])) := by
  refine ⟨?_, ?_, ?_⟩
  · intro N recs h0 hN hfit hRead hSend fuel
    have hrun := ConsumeStream_deliver s stream id hid hDone hAuth hSend recs N h0 hN hfit
      hRead fuel
    refine ⟨hrun, sentMsgs_deliveries id recs N, ?_⟩
    obtain ⟨t, ex, c1, hrest, _⟩ := ConsumeStream_run s stream id hid fuel
      ⟨(N + recs.length) % 2 ^ 64⟩ (h0 ++ deliveries id N recs)
    exact ⟨t, by rw [hrun, hrest]⟩
  · intro fuel req h r hR hS
    exact ConsumeStream_delivery s stream fuel req h id r hid (hDone _) (hAuth _) hR hS
  · intro fuel req h r e hR hS
    exact ConsumeStream_send_error s stream fuel req h id r e hid (hDone _) (hAuth _) hR hS

theorem ConsumeStream_in_order_witness :
    (ConsumeStream ⟨fixedLog [rec1, rec1, rec2], allowAll⟩ (openStream rootCtx) (2 + 0) ⟨1⟩ []
        = ConsumeStream ⟨fixedLog [rec1, rec1, rec2], allowAll⟩ (openStream rootCtx) 0
            ⟨(1 + 2) % 2 ^ 64⟩ ([] ++ deliveries "root" 1 [rec1, rec2])) ∧
      ConsumeStream ⟨fixedLog [rec1, rec1, rec2], allowAll⟩ (brokenStream rootCtx) (0 + 1) ⟨2⟩ []
        = (.returned (some (.Other "transport is closing")), ⟨2⟩,
            [] ++ [Event.done false, Event.authorize "root" "*" "consume" none,
              Event.read 2 (.ok rec2),
              Event.sendMsg ⟨rec2⟩ (some (.Other "transport is closing"))]) :=
  ⟨((ConsumeStream_in_order ⟨fixedLog [rec1, rec1, rec2], allowAll⟩ (openStream rootCtx) "root"
      rfl (fun _ => rfl) (fun _ => rfl)).1 1 [rec1, rec2] [] (by norm_num) (by norm_num)
      (fun h i r hr => by
        match i, hr with
        | 0, hr => cases hr; rfl
        | 1, hr => cases hr; rfl)
      (fun _ _ => rfl) 0).1,
    (ConsumeStream_in_order ⟨fixedLog [rec1, rec1, rec2], allowAll⟩ (brokenStream rootCtx) "root"
      rfl (fun _ => rfl) (fun _ => rfl)).2.2 0 ⟨2⟩ [] rec2 _ rfl rfl⟩

theorem doneCount_append (a b : Trace) : doneCount (a ++ b) = doneCount a + doneCount b := by
  simp [doneCount]

theorem doneCount_delivery (id : String) (c : Nat) (r : Record) :
    doneCount (delivery id c r) = 1 := by
  simp [doneCount, delivery, Event.isDone]

theorem doneCount_retry (id : String) (c x : Nat) : doneCount (retry id c x) = 1 := by
  simp [doneCount, retry, Event.isDone]

theorem doneCount_deliveries (id : String) (recs : List Record) :
    ∀ N, doneCount (deliveries id N recs) = recs.length := by
  induction recs with
  | nil => intro N; simp [deliveries, doneCount]
  | cons r recs ih =>
    intro N
    rw [deliveries, doneCount_append, doneCount_delivery, ih (N + 1), List.length_cons]
    omega

theorem doneCount_retries (id : String) (c x m : Nat) :
    doneCount (retries id c x m) = m := by
  induction m with
  | zero => simp [retries, doneCount]
  | succ m ih =>
    rw [retries, doneCount_append, doneCount_retry, ih]
    omega

/-- While the context is found not cancelled at the first `k` checks, the authorizer
allows during the first `k` iterations, every send succeeds, and the log holds the `k`
records `recs` at the offsets `N`, `N + 1`, ..., the stream makes one complete delivery
for each of these records in turn and goes on from the offset after them. -/
theorem ConsumeStream_deliver_while (s : Config) (stream : Log_ConsumeStreamServer)
    (id : String) (hid : subject stream.Context = some id)
    (hSend : ∀ h m, stream.SendMsg h m = none) (recs : List Record) :
    ∀ (N : Nat) (h0 : Trace), N < 2 ^ 64 → N + recs.length ≤ 2 ^ 64 →
      (∀ t, doneCount t < recs.length → stream.Context.Done (h0 ++ t) = false) →
      (∀ t, doneCount t ≤ recs.length →
        s.Authorizer.Authorize (h0 ++ t) id "*" "consume" = none) →
      (∀ h i r, recs[i]? = some r → s.CommitLog.Read h (N + i) = .ok r) →
      ∀ fuel, ConsumeStream s stream (recs.length + fuel) ⟨N⟩ h0
        = ConsumeStream s stream fuel ⟨(N + recs.length) % 2 ^ 64⟩
            (h0 ++ deliveries id N recs) := by
  induction recs with
  | nil =>
    intro N h0 hN _ _ _ _ fuel
    have hmod : N % 2 ^ 64 = N := Nat.mod_eq_of_lt hN
    simp only [List.length_nil, Nat.add_zero, Nat.zero_add, deliveries, List.append_nil, hmod]
  | cons r recs ih =>
    intro N h0 hN hfit hDone hAuth hRead fuel
    have hD : stream.Context.Done h0 = false := by
      simpa using hDone [] (by simp [doneCount])
    have hA : s.Authorizer.Authorize (h0 ++ [Event.done false]) id "*" "consume" = none :=
      hAuth _ (by simp [doneCount, Event.isDone])
    have hR : s.CommitLog.Read
        (h0 ++ [Event.done false, Event.authorize id "*" "consume" none]) N = .ok r := by
      simpa using hRead _ 0 r (by simp)
    have hstep := ConsumeStream_delivery s stream (recs.length + fuel) ⟨N⟩ h0 id r hid
      hD hA hR (hSend _ _)
    have hfuel : (r :: recs).length + fuel = recs.length + fuel + 1 := by
      simp only [List.length_cons]; omega
    rw [hfuel, hstep]
    simp only [List.length_cons] at hfit hDone hAuth ⊢
    by_cases hnil : recs = []
    · subst hnil
      simp [deliveries]
    · have hlen : 0 < recs.length := List.length_pos.mpr hnil
      have hlt : N + 1 < 2 ^ 64 := by omega
      have hshift : ∀ t, doneCount (delivery id N r ++ t) = doneCount t + 1 := by
        intro t
        rw [doneCount_append, doneCount_delivery, Nat.add_comm]
      have hread1 : ∀ h i r1, recs[i]? = some r1 → s.CommitLog.Read h (N + 1 + i) = .ok r1 := by
        intro h i r1 hr
        have := hRead h (i + 1) r1 (by simpa using hr)
        rwa [show N + 1 + i = N + (i + 1) by omega]
      have hdone1 : ∀ t, doneCount t < recs.length →
          stream.Context.Done (h0 ++ delivery id N r ++ t) = false := by
        intro t ht
        have := hDone (delivery id N r ++ t) (by rw [hshift]; omega)
        simpa [List.append_assoc] using this
      have hauth1 : ∀ t, doneCount t ≤ recs.length →
          s.Authorizer.Authorize (h0 ++ delivery id N r ++ t) id "*" "consume" = none := by
        intro t ht
        have := hAuth (delivery id N r ++ t) (by rw [hshift]; omega)
        simpa [List.append_assoc] using this
      rw [Nat.mod_eq_of_lt hlt, ih (N + 1) _ hlt (by omega) hdone1 hauth1 hread1 fuel]
      rw [show N + 1 + recs.length = N + (recs.length + 1) by omega]
      simp [deliveries, List.append_assoc]

/-- While the context is found not cancelled at the first `m` checks, the authorizer
allows during the first `m` iterations, and the log answers every read of offset `c` with
`ErrOffsetOutOfRange`, the stream makes `m` iterations that send nothing and stays at
offset `c`. -/
theorem ConsumeStream_retry_while (s : Config) (stream : Log_ConsumeStreamServer)
    (id : String) (hid : subject stream.Context = some id) (c x : Nat)
    (hRead : ∀ h, s.CommitLog.Read h c = .error (.ErrOffsetOutOfRange x)) (m : Nat) :
    ∀ (h0 : Trace),
      (∀ t, doneCount t < m → stream.Context.Done (h0 ++ t) = false) →
      (∀ t, doneCount t ≤ m → s.Authorizer.Authorize (h0 ++ t) id "*" "consume" = none) →
      ∀ fuel, ConsumeStream s stream (m + fuel) ⟨c⟩ h0
        = ConsumeStream s stream fuel ⟨c⟩ (h0 ++ retries id c x m) := by
  induction m with
  | zero =>
    intro h0 _ _ fuel
    simp [retries]
  | succ m ih =>
    intro h0 hDone hAuth fuel
    have hD : stream.Context.Done h0 = false := by
      simpa using hDone [] (by simp [doneCount])
    have hA : s.Authorizer.Authorize (h0 ++ [Event.done false]) id "*" "consume" = none :=
      hAuth _ (by simp [doneCount, Event.isDone])
    have hstep := ConsumeStream_retry s stream (m + fuel) ⟨c⟩ h0 id x hid hD hA (hRead _)
    have hfuel : m + 1 + fuel = m + fuel + 1 := by omega
    have hshift : ∀ t, doneCount (retry id c x ++ t) = doneCount t + 1 := by
      intro t
      rw [doneCount_append, doneCount_retry, Nat.add_comm]
    rw [hfuel, hstep, ih (h0 ++ retry id c x)
      (by
        intro t ht
        have := hDone (retry id c x ++ t) (by rw [hshift]; omega)
        simpa [List.append_assoc] using this)
      (by
        intro t ht
        have := hAuth (retry id c x ++ t) (by rw [hshift]; omega)
        simpa [List.append_assoc] using this) fuel]
    simp [retries, List.append_assoc]

/-- A stream that has delivered the records `recs` from offset `N` on, has then found
nothing `m` times at the next offset, and finds its context cancelled at the next check,
returns nil; the check is its last call. -/
theorem ConsumeStream_cancelled_after (s : Config) (stream : Log_ConsumeStreamServer)
    (id : String) (hid : subject stream.Context = some id)
    (N : Nat) (recs : List Record) (x m : Nat) (h0 : Trace)
    (hfit : N + recs.length < 2 ^ 64)
    (hDoneF : ∀ t, doneCount t < recs.length + m → stream.Context.Done (h0 ++ t) = false)
    (hDoneT : ∀ t, doneCount t = recs.length + m → stream.Context.Done (h0 ++ t) = true)
    (hAuth : ∀ h, s.Authorizer.Authorize h id "*" "consume" = none)
    (hSend : ∀ h msg, stream.SendMsg h msg = none)
    (hRead : ∀ h i r, recs[i]? = some r → s.CommitLog.Read h (N + i) = .ok r)
    (hTail : ∀ h, s.CommitLog.Read h (N + recs.length) = .error (.ErrOffsetOutOfRange x)) :
    ∀ fuel, ConsumeStream s stream (recs.length + m + 1 + fuel) ⟨N⟩ h0
      = (.returned none, ⟨N + recs.length⟩,
          h0 ++ deliveries id N recs ++ retries id (N + recs.length) x m
            ++ [Event.done true]) := by
  intro fuel
  have hmod : (N + recs.length) % 2 ^ 64 = N + recs.length := Nat.mod_eq_of_lt hfit
  have h1 := ConsumeStream_deliver_while s stream id hid hSend recs N h0 (by omega) (by omega)
    (fun t ht => hDoneF t (by omega)) (fun t _ => hAuth _) hRead (m + (fuel + 1))
  have hcnt : ∀ t, doneCount (deliveries id N recs ++ t) = recs.length + doneCount t := by
    intro t
    rw [doneCount_append, doneCount_deliveries]
  have h2 := ConsumeStream_retry_while s stream id hid (N + recs.length) x hTail m
    (h0 ++ deliveries id N recs)
    (by
      intro t ht
      have := hDoneF (deliveries id N recs ++ t) (by rw [hcnt]; omega)
      simpa [List.append_assoc] using this)
    (fun t _ => hAuth _) (fuel + 1)
  have h3 : stream.Context.Done
      (h0 ++ deliveries id N recs ++ retries id (N + recs.length) x m) = true := by
    have := hDoneT (deliveries id N recs ++ retries id (N + recs.length) x m)
      (by rw [hcnt, doneCount_retries])
    simpa [List.append_assoc] using this
  rw [show recs.length + m + 1 + fuel = recs.length + (m + (fuel + 1)) by omega, h1, hmod, h2,
    ConsumeStream_done s stream fuel _ _ h3]

/-- A stream that has delivered the records `recs` from offset `N` on and is then denied
with an error `e` that is not of type `ErrOffsetOutOfRange` makes no call after the
denial and returns `e`. -/
theorem ConsumeStream_denied_after (s : Config) (stream : Log_ConsumeStreamServer)
    (id : String) (hid : subject stream.Context = some id)
    (N : Nat) (recs : List Record) (e : Error) (h0 : Trace)
    (hN : N < 2 ^ 64) (hfit : N + recs.length ≤ 2 ^ 64)
    (hDone : ∀ h, stream.Context.Done h = false)
    (hAuth : ∀ t, doneCount t ≤ recs.length →
      s.Authorizer.Authorize (h0 ++ t) id "*" "consume" = none)
    (hDeny : ∀ t, doneCount t = recs.length + 1 →
      s.Authorizer.Authorize (h0 ++ t) id "*" "consume" = some e)
    (hne : e.isOffsetOutOfRange = false)
    (hSend : ∀ h msg, stream.SendMsg h msg = none)
    (hRead : ∀ h i r, recs[i]? = some r → s.CommitLog.Read h (N + i) = .ok r) :
    ∀ fuel, ConsumeStream s stream (recs.length + 1 + fuel) ⟨N⟩ h0
      = (.returned (some e), ⟨(N + recs.length) % 2 ^ 64⟩,
          h0 ++ deliveries id N recs
            ++ [Event.done false, Event.authorize id "*" "consume" (some e)]) := by
  intro fuel
  have h1 := ConsumeStream_deliver_while s stream id hid hSend recs N h0 hN hfit
    (fun t _ => hDone _) hAuth hRead (fuel + 1)
  have hA : s.Authorizer.Authorize (h0 ++ deliveries id N recs ++ [Event.done false])
      id "*" "consume" = some e := by
    have := hDeny (deliveries id N recs ++ [Event.done false])
      (by rw [doneCount_append, doneCount_deliveries]; simp [doneCount, Event.isDone])
    simpa [List.append_assoc] using this
  rw [show recs.length + 1 + fuel = recs.length + (fuel + 1) by omega, h1,
    ConsumeStream_denied s stream fuel _ _ id e hid (hDone _) hA hne]

/-- C8: cancellation of a consume stream is checked at the start of every iteration and
is a clean end.  (1) In every state of the stream, if the context is cancelled at the
start of an iteration, `ConsumeStream` returns nil, and the check is the last call it
makes: no authorization, read or send follows.  (2) The same holds in the course of a
run: a stream that is started at offset `N`, delivers the `k` records that the log holds
from `N` on, then finds nothing `m` times at offset `N + k`, and whose context is
cancelled when it is checked for the time number `k + m + 1`, makes exactly these
deliveries and retries, then that check, and returns nil with the offset `N + k` (for
every `k` and `m`, so after any number of records sent and also while it retries).
(3) In every run, each authorization comes directly after a check that found the context
not cancelled, and each read directly after that check and the authorization that allowed
it.  (4) An iteration that delivers a record or finds nothing is followed by the run of
the stream from the history it has reached, so that (1) applies to the next check,
whatever has happened before. -/
theorem ConsumeStream_cancellation (s : Config) (stream : Log_ConsumeStreamServer) :
    (∀ (fuel : Nat) (req : ConsumeRequest) (h : Trace),
      stream.Context.Done h = true →
      ConsumeStream s stream (fuel + 1) req h
        = (.returned none, req, h ++ [Event.done true])) ∧
    (∀ (id : String), subject stream.Context = some id →
      ∀ (N : Nat) (recs : List Record) (x m : Nat) (h0 : Trace),
        N + recs.length < 2 ^ 64 →
        (∀ t, doneCount t < recs.length + m → stream.Context.Done (h0 ++ t) = false) →
        (∀ t, doneCount t = recs.length + m → stream.Context.Done (h0 ++ t) = true) →
        (∀ h, s.Authorizer.Authorize h id "*" "consume" = none) →
        (∀ h msg, stream.SendMsg h msg = none) →
        (∀ h i r, recs[i]? = some r → s.CommitLog.Read h (N + i) = .ok r) →
        (∀ h, s.CommitLog.Read h (N + recs.length) = .error (.ErrOffsetOutOfRange x)) →
        ∀ fuel, ConsumeStream s stream (recs.length + m + 1 + fuel) ⟨N⟩ h0
          = (.returned none, ⟨N + recs.length⟩,
              h0 ++ deliveries id N recs ++ retries id (N + recs.length) x m
                ++ [Event.done true])) ∧
    (∀ (id : String), subject stream.Context = some id →
      ∀ (fuel : Nat) (req : ConsumeRequest) (h0 pre post : Trace),
        (∀ sub obj act err,
          (ConsumeStream s stream fuel req h0).2.2
              = h0 ++ pre ++ Event.authorize sub obj act err :: post →
            ∃ pre1, pre = pre1 ++ [Event.done false]) ∧
        (∀ off res,
          (ConsumeStream s stream fuel req h0).2.2
              = h0 ++ pre ++ Event.read off res :: post →
            ∃ pre1, pre = pre1
              ++ [Event.done false, Event.authorize id "*" "consume" none])) ∧
    (∀ (id : String), subject stream.Context = some id →
      ∀ (fuel : Nat) (req : ConsumeRequest) (h : Trace),
        stream.Context.Done h = false →
        s.Authorizer.Authorize (h ++ [Event.done false]) id "*" "consume" = none →
        (∀ r,
          s.CommitLog.Read (h ++ [Event.done false, Event.authorize id "*" "consume" none])
            req.Offset = .ok r →
          stream.SendMsg
            (h ++ [Event.done false, Event.authorize id "*" "consume" none,
              Event.read req.Offset (.ok r)]) { Record := r } = none →
          ConsumeStream s stream (fuel + 1) req h
            = ConsumeStream s stream fuel { Offset := (req.Offset + 1) % 2 ^ 64 }
                (h ++ delivery id req.Offset r)) ∧
        (∀ x,
          s.CommitLog.Read (h ++ [Event.done false, Event.authorize id "*" "consume" none])
            req.Offset = .error (.ErrOffsetOutOfRange x) →
          ConsumeStream s stream (fuel + 1) req h
            = ConsumeStream s stream fuel req (h ++ retry id req.Offset x))) := by
  refine ⟨?_, ?_, ?_, ?_⟩
  · intro fuel req h hD
    exact ConsumeStream_done s stream fuel req h hD
  · intro id hid N recs x m h0 hfit hDoneF hDoneT hAuth hSend hRead hTail
    exact ConsumeStream_cancelled_after s stream id hid N recs x m h0 hfit hDoneF hDoneT hAuth
      hSend hRead hTail
  · intro id hid fuel req h0 pre post
    obtain ⟨t, ex, c1, hrun, hshape⟩ := ConsumeStream_run s stream id hid fuel req h0
    rw [hrun]
    refine ⟨?_, ?_⟩
    · intro sub obj act err h
      rw [List.append_assoc] at h
      exact hshape.authorize_after_done pre sub obj act err post (List.append_cancel_left h)
    · intro off res h
      rw [List.append_assoc] at h
      exact hshape.read_guarded pre off res post (List.append_cancel_left h)
  · intro id hid fuel req h hD hA
    refine ⟨?_, ?_⟩
    · intro r hR hS
      exact ConsumeStream_delivery s stream fuel req h id r hid hD hA hR hS
    · intro x hR
      exact ConsumeStream_retry s stream fuel req h id x hid hD hA hR

theorem ConsumeStream_cancellation_witness :
    ConsumeStream ⟨fixedLog [rec1], allowAll⟩ (openStream (cancelledAfterChecks 3))
        (1 + 2 + 1 + 0) ⟨0⟩ []
      = (.returned none, ⟨1⟩,
          [Event.done false, Event.authorize "root" "*" "consume" none,
            Event.read 0 (.ok rec1), Event.sendMsg ⟨rec1⟩ none,
            Event.done false, Event.authorize "root" "*" "consume" none,
            Event.read 1 (.error (.ErrOffsetOutOfRange 1)),
            Event.done false, Event.authorize "root" "*" "consume" none,
            Event.read 1 (.error (.ErrOffsetOutOfRange 1)),
            Event.done true]) ∧
    ConsumeStream ⟨fixedLog [rec1], allowAll⟩ (openStream (cancelledAfterChecks 0)) (0 + 1)
        ⟨0⟩ []
      = (.returned none, ⟨0⟩, [] ++ [Event.done true]) :=
  ⟨(ConsumeStream_cancellation ⟨fixedLog [rec1], allowAll⟩
      (openStream (cancelledAfterChecks 3))).2.1 "root" rfl 0 [rec1] 1 2 []
      (by norm_num)
      (fun t ht => by
        simp only [openStream, cancelledAfterChecks, List.nil_append, List.length_cons,
          List.length_nil] at ht ⊢
        simp only [decide_eq_false_iff_not]
        omega)
      (fun t ht => by
        simp only [openStream, cancelledAfterChecks, List.nil_append, List.length_cons,
          List.length_nil] at ht ⊢
        simp only [decide_eq_true_eq]
        omega)
      (fun _ => rfl) (fun _ _ => rfl)
      (fun h i r hr => by
        match i, hr with
        | 0, hr => cases hr; rfl)
      (fun _ => rfl) 0,
    (ConsumeStream_cancellation ⟨fixedLog [rec1], allowAll⟩
      (openStream (cancelledAfterChecks 0))).1 0 ⟨0⟩ [] rfl⟩

/-! ## Authorization of every record -/

/-- In every run of `ProduceStream`, each `Append` call comes directly after the receipt
of the request whose record it appends and an `Authorize(identity, "*", "produce")` call
that allowed, and a denial is the last call of the stream, whose error the stream
returns.  In every run of `ConsumeStream`, each `Read` call comes directly after an
`Authorize(identity, "*", "consume")` call that allowed, and a denial whose error is not
of type `ErrOffsetOutOfRange` is the last call of the stream, whose error the stream
returns. -/
theorem streams_authorize_every_record (s : Config) (pstream : Log_ProduceStreamServer)
    (cstream : Log_ConsumeStreamServer) (pid cid : String)
    (hpid : subject pstream.Context = some pid) (hcid : subject cstream.Context = some cid) :
    (∀ (fuel : Nat) (h0 pre post : Trace),
      (∀ r res,
        (ProduceStream s pstream fuel h0).2 = h0 ++ pre ++ Event.append r res :: post →
          ∃ pre1 req,
            pre = pre1 ++ [Event.recv (.ok req), Event.authorize pid "*" "produce" none] ∧
              r = req.Record) ∧
      (∀ sub obj act e,
        (ProduceStream s pstream fuel h0).2
            = h0 ++ pre ++ Event.authorize sub obj act (some e) :: post →
          post = [] ∧ (ProduceStream s pstream fuel h0).1 = .returned (some e))) ∧
    (∀ (fuel : Nat) (req : ConsumeRequest) (h0 pre post : Trace),
      (∀ off res,
        (ConsumeStream s cstream fuel req h0).2.2 = h0 ++ pre ++ Event.read off res :: post →
          ∃ pre1, pre = pre1 ++ [Event.done false, Event.authorize cid "*" "consume" none]) ∧
      (∀ sub obj act e,
        (ConsumeStream s cstream fuel req h0).2.2
            = h0 ++ pre ++ Event.authorize sub obj act (some e) :: post →
          e.isOffsetOutOfRange = false →
          post = [] ∧ (ConsumeStream s cstream fuel req h0).1 = .returned (some e))) := by
  refine ⟨?_, ?_⟩
  · intro fuel h0 pre post
    obtain ⟨t, ex, hrun, hshape⟩ := ProduceStream_run s pstream pid hpid fuel h0
    rw [hrun]
    refine ⟨?_, ?_⟩
    · intro r res h
      rw [List.append_assoc] at h
      exact hshape.append_guarded pre r res post (List.append_cancel_left h)
    · intro sub obj act e h
      rw [List.append_assoc] at h
      exact hshape.produce_denial_final pre sub obj act e post (List.append_cancel_left h)
  · intro fuel req h0 pre post
    obtain ⟨t, ex, c1, hrun, hshape⟩ := ConsumeStream_run s cstream cid hcid fuel req h0
    rw [hrun]
    refine ⟨?_, ?_⟩
    · intro off res h
      rw [List.append_assoc] at h
      exact hshape.read_guarded pre off res post (List.append_cancel_left h)
    · intro sub obj act e h hne
      rw [List.append_assoc] at h
      exact hshape.consume_denial_final pre sub obj act e post (List.append_cancel_left h) hne

/-- An authorizer that starts to deny at record 2 with a status error: the consume stream
delivers record 1, asks the authorizer for record 2, does not touch the log again, and
returns the denial. -/
theorem ConsumeStream_denied_at_second_record :
    ConsumeStream ⟨fixedLog [rec1, rec2], allowIterations 1⟩ (openStream rootCtx)
        (1 + 1 + 3) ⟨0⟩ []
      = (.returned (some (.Status 7 "permission denied")), ⟨1⟩,
          [Event.done false, Event.authorize "root" "*" "consume" none,
            Event.read 0 (.ok rec1), Event.sendMsg ⟨rec1⟩ none,
            Event.done false,
            Event.authorize "root" "*" "consume" (some (.Status 7 "permission denied"))]) :=
  ConsumeStream_denied_after ⟨fixedLog [rec1, rec2], allowIterations 1⟩ (openStream rootCtx)
    "root" rfl 0 [rec1] (.Status 7 "permission denied") [] (by norm_num) (by norm_num)
    (fun _ => rfl)
    (fun t ht => by
      simp only [allowIterations, List.nil_append, List.length_cons, List.length_nil] at ht ⊢
      simp [ht])
    (fun t ht => by
      simp only [allowIterations, List.nil_append, List.length_cons, List.length_nil] at ht ⊢
      simp [ht])
    rfl (fun _ _ => rfl)
    (fun h i r hr => by
      match i, hr with
      | 0, hr => cases hr; rfl)
    3

/-- With an authorizer that allows record 1 and from then on denies with an error of type
`ErrOffsetOutOfRange`, a consume stream that has made its first check never returns: it
repeats the check and the authorization. -/
theorem ConsumeStream_allowThenOutOfRange_running (fuel : Nat) :
    ∀ (req : ConsumeRequest) (h : Trace), 1 ≤ doneCount h →
      (ConsumeStream ⟨fixedLog [rec1, rec2], allowThenOutOfRange 1⟩ (openStream rootCtx)
        fuel req h).1 = .running := by
  induction fuel with
  | zero => intro req h _; rfl
  | succ fuel ih =>
    intro req h hcount
    have hA : (allowThenOutOfRange 1).Authorize (h ++ [Event.done false]) "root" "*" "consume"
        = some (.ErrOffsetOutOfRange 0) := by
      have h1 : doneCount [Event.done false] = 1 := rfl
      have h2 : ¬ doneCount (h ++ [Event.done false]) ≤ 1 := by
        rw [doneCount_append, h1]
        omega
      simp only [allowThenOutOfRange, h2, if_false]
    rw [ConsumeStream_denied_retry ⟨fixedLog [rec1, rec2], allowThenOutOfRange 1⟩
      (openStream rootCtx) fuel req h "root" 0 rfl rfl hA]
    refine ih req _ ?_
    rw [doneCount_append]
    omega

/-- C10, the failing case: the authorizer allows record 1 and starts to deny at record 2,
with an error whose type is `ErrOffsetOutOfRange`.  `ConsumeStream` delivers record 1,
asks the authorizer for record 2 and is denied, but does not terminate with the denial:
the type switch sends it to the next iteration, where it asks again, and so on; it never
returns.  (The log is not touched after the denial.) -/
theorem ConsumeStream_denial_not_terminal :
    ConsumeStream ⟨fixedLog [rec1, rec2], allowThenOutOfRange 1⟩ (openStream rootCtx) 3 ⟨0⟩ []
        = (.running, ⟨1⟩,
            [Event.done false, Event.authorize "root" "*" "consume" none,
              Event.read 0 (.ok rec1), Event.sendMsg ⟨rec1⟩ none,
              Event.done false,
              Event.authorize "root" "*" "consume" (some (.ErrOffsetOutOfRange 0)),
              Event.done false,
              Event.authorize "root" "*" "consume" (some (.ErrOffsetOutOfRange 0))]) ∧
      ¬ ∃ (fuel : Nat) (err : Option Error),
        (ConsumeStream ⟨fixedLog [rec1, rec2], allowThenOutOfRange 1⟩ (openStream rootCtx)
          fuel ⟨0⟩ []).1 = .returned err :=
  ⟨rfl, fun ⟨fuel, err, h⟩ => by
    cases fuel with
    | zero => cases h
    | succ fuel =>
      rw [ConsumeStream_delivery ⟨fixedLog [rec1, rec2], allowThenOutOfRange 1⟩
        (openStream rootCtx) fuel ⟨0⟩ [] "root" rec1 rfl rfl rfl rfl rfl,
        ConsumeStream_allowThenOutOfRange_running fuel _ _
          (by simp [doneCount, delivery, Event.isDone])] at h
      cases h⟩

/-! ## Identity extraction -/

/-- On a connection without transport credentials (`AuthInfo` is nil), `authenticate`
succeeds and attaches the identity `""`. -/
theorem authenticate_no_auth_info (ctx : Context) (p : Peer) (hpeer : ctx.peer = some p)
    (hinfo : p.AuthInfo = none) :
    ∃ ctx1, authenticate ctx = .ret ctx1 none ∧ subject ctx1 = some "" := by
  refine ⟨{ ctx with subjectValue := some "" }, ?_, rfl⟩
  simp [authenticate, hpeer, hinfo]

/-- The sibling case at a concrete call: without transport credentials the caller is
anonymous. -/
theorem authenticate_plainCtx :
    ∃ ctx1, authenticate plainCtx = .ret ctx1 none ∧ subject ctx1 = some "" :=
  authenticate_no_auth_info plainCtx { AuthInfo := none } rfl rfl

/-- C9, the failing case: on a TLS session without client authentication, whose list of
verified chains is empty, `authenticate` does not return; indexing `VerifiedChains[0][0]`
panics.  Nothing is attached to the context. -/
theorem authenticate_tls_without_client_certificate (v : Option String) (d : Trace → Bool) :
    authenticate
        { peer := some { AuthInfo := some (.TLSInfo { VerifiedChains := [] }) },
          subjectValue := v, Done := d }
      = .panic := by
  rfl

end Server
